import Mathlib

/-!
Verification of the sudoku generator/solver core of this repository.

The two scripts (`generate_sudoku.py`, `solve_sudoku.py`) are embedded
shallowly: a `Grid` is a list of rows of integers, mutation is modelled by
threading the grid value through each function, and the unbounded Python
recursion is modelled by a fuel parameter (the canonical entry points use
fuel 82, which exceeds the number of cells of a 9x9 grid, so on well-formed
grids the fuel never runs out; this is proved below).
-/

namespace Sudoku

abbrev Grid := List (List Int)

/-- Value of cell (r, c); out-of-range reads default to 0 (Python would raise,
but every access in the embedded code is in range on well-formed grids). -/
def getCell (g : Grid) (r c : Nat) : Int := (g.getD r []).getD c 0

/-- `grid[r][c] = v` as a pure update. -/
def setCell (g : Grid) (r c : Nat) (v : Int) : Grid := g.set r ((g.getD r []).set c v)

/-- The candidate digits `range(1, 10)` in ascending order. -/
def digits : List Int := [1, 2, 3, 4, 5, 6, 7, 8, 9]

/-- All 81 cell coordinates in the row-major order of the scan in `find_empty`. -/
def allCells : List (Nat × Nat) := (List.range 81).map (fun k => (k / 9, k % 9))

/-- `find_empty`: first cell holding 0 in row-major order (both scripts define it). -/
def find_empty (g : Grid) : Option (Nat × Nat) :=
  allCells.find? (fun p => getCell g p.1 p.2 == 0)

/-- `is_valid_move`: the digit clashes with no cell of the row, the column or
the 3x3 box of (row, col). -/
def is_valid_move (g : Grid) (row col : Nat) (num : Int) : Bool :=
  if (g.getD row []).contains num then false
  else if (List.range 9).any (fun r => getCell g r col == num) then false
  else if (List.range 3).any (fun i => (List.range 3).any (fun j =>
      getCell g (row / 3 * 3 + i) (col / 3 * 3 + j) == num)) then false
  else true

/-- Number of empty cells of the (9x9 portion of the) grid. -/
def numEmpty (g : Grid) : Nat :=
  (allCells.filter (fun p => getCell g p.1 p.2 == 0)).length

/-- A well-formed grid: 9 rows of 9 cells. -/
def GridWF (g : Grid) : Prop := g.length = 9 ∧ ∀ r < 9, (g.getD r []).length = 9

instance : DecidablePred GridWF := fun g => by
  unfold GridWF
  infer_instance

/-!  The counting-mode search `count_solutions` (generate_sudoku.py).  -/

/-- Digit loop of `count_solutions`.  `f` is the recursive call at one less
fuel.  The grid is threaded: place, recurse, reset to 0, then the cap test. -/
def countLoop (f : Grid → Nat × Grid) (limit r c : Nat) :
    List Int → Nat → Grid → Nat × Grid
  | [], count, g => (count, g)
  | d :: ds, count, g =>
    if is_valid_move g r c d then
      let res := f (setCell g r c d)
      let g2 := setCell res.2 r c 0
      let count2 := count + res.1
      if limit ≤ count2 then (count2, g2)
      else countLoop f limit r c ds count2 g2
    else countLoop f limit r c ds count g

/-- Fuel-indexed `count_solutions`; returns the count and the final grid. -/
def countSolsF : Nat → Grid → Nat → Nat × Grid
  | 0, g, _ => (0, g)
  | fuel + 1, g, limit =>
    match find_empty g with
    | none => (1, g)
    | some (r, c) => countLoop (fun g' => countSolsF fuel g' limit) limit r c digits 0 g

/-- `count_solutions(grid, limit)`: canonical entry point (fuel 82 suffices
on any grid, since a grid has at most 81 empty cells). -/
def count_solutions (g : Grid) (limit : Nat) : Nat × Grid := countSolsF 82 g limit

/-!  The first-solution search `solve_sudoku` (solve_sudoku.py), ascending
candidate order, counting attempts (every digit tested, valid or not).  -/

structure SolveRes where
  ok : Bool
  grid : Grid
  attempts : Nat
deriving DecidableEq

/-- Digit loop of `solve_sudoku`. -/
def solveLoop (f : Grid → Nat → SolveRes) (r c : Nat) :
    List Int → Grid → Nat → SolveRes
  | [], g, att => ⟨false, g, att⟩
  | d :: ds, g, att =>
    if is_valid_move g r c d then
      let res := f (setCell g r c d) (att + 1)
      if res.ok then res
      else solveLoop f r c ds (setCell res.grid r c 0) res.attempts
    else solveLoop f r c ds g (att + 1)

/-- Fuel-indexed `solve_sudoku`. -/
def solveF : Nat → Grid → Nat → SolveRes
  | 0, g, att => ⟨false, g, att⟩
  | fuel + 1, g, att =>
    match find_empty g with
    | none => ⟨true, g, att⟩
    | some (r, c) => solveLoop (solveF fuel) r c digits g att

/-- `solve_sudoku(grid, stats)` with `stats = {"attempts": 0}`. -/
def solve_sudoku (g : Grid) : SolveRes := solveF 82 g 0

/-!  The node-counting search `solve_sudoku_with_stats` (generate_sudoku.py).
`random.sample(range(1, 10), 9)` draws a fresh permutation of the digits at
every call; the outcomes of the randomness source are modelled as a list of
candidate orders consumed one per call (an empty supply falls back to the
ascending order, so that every sequence of draws is representable).  -/

structure StatsRes where
  ok : Bool
  grid : Grid
  supply : List (List Int)
  nodes : Nat
deriving DecidableEq

/-- Digit loop of `solve_sudoku_with_stats`; `nodes` counts successful
placements only. -/
def statsLoop (f : Grid → List (List Int) → Nat → StatsRes) (r c : Nat) :
    List Int → Grid → List (List Int) → Nat → StatsRes
  | [], g, sup, nodes => ⟨false, g, sup, nodes⟩
  | d :: ds, g, sup, nodes =>
    if is_valid_move g r c d then
      let res := f (setCell g r c d) sup (nodes + 1)
      if res.ok then res
      else statsLoop f r c ds (setCell res.grid r c 0) res.supply res.nodes
    else statsLoop f r c ds g sup nodes

/-- Fuel-indexed `solve_sudoku_with_stats`. -/
def solveStatsF : Nat → Grid → List (List Int) → Nat → StatsRes
  | 0, g, sup, nodes => ⟨false, g, sup, nodes⟩
  | fuel + 1, g, sup, nodes =>
    match find_empty g with
    | none => ⟨true, g, sup, nodes⟩
    | some (r, c) => statsLoop (solveStatsF fuel) r c (sup.headD digits) g sup.tail nodes

/-- `solve_sudoku_with_stats(grid, {"nodes": 0})` under a given randomness
outcome. -/
def solve_sudoku_with_stats (g : Grid) (sup : List (List Int)) : StatsRes :=
  solveStatsF 82 g sup 0

/-!  Validation (solve_sudoku.py).  -/

/-- `is_valid_group`: the non-zero values of a row/column/box are pairwise
distinct (`len(nums) == len(set(nums))`). -/
def is_valid_group (values : List Int) : Bool :=
  let nums := values.filter (fun v => v != 0)
  nums.dedup.length == nums.length

/-- The column `[grid[r][c] for r in range(9)]`. -/
def colList (g : Grid) (c : Nat) : List Int := (List.range 9).map (fun r => getCell g r c)

/-- The box `[grid[r][c] for r in range(br, br+3) for c in range(bc, bc+3)]`. -/
def boxList (g : Grid) (br bc : Nat) : List Int :=
  [getCell g br bc, getCell g br (bc + 1), getCell g br (bc + 2),
   getCell g (br + 1) bc, getCell g (br + 1) (bc + 1), getCell g (br + 1) (bc + 2),
   getCell g (br + 2) bc, getCell g (br + 2) (bc + 1), getCell g (br + 2) (bc + 2)]

/-- The errors `validate_grid` can raise, with the data its messages carry. -/
inductive ValErr where
  | outOfRange (r c : Nat) (v : Int)
  | dupRow (r : Nat)
  | dupCol (c : Nat)
  | dupBox (br bc : Nat)
deriving DecidableEq

/-- Range scan of `validate_grid` over the cells in row-major order. -/
def checkRange (g : Grid) : List (Nat × Nat) → Option ValErr
  | [] => none
  | (r, c) :: rest =>
    if 0 ≤ getCell g r c ∧ getCell g r c ≤ 9 then checkRange g rest
    else some (.outOfRange r c (getCell g r c))

/-- Row scan of `validate_grid`. -/
def checkRows (g : Grid) : List Nat → Option ValErr
  | [] => none
  | r :: rest => if is_valid_group (g.getD r []) then checkRows g rest else some (.dupRow r)

/-- Column scan of `validate_grid`. -/
def checkCols (g : Grid) : List Nat → Option ValErr
  | [] => none
  | c :: rest => if is_valid_group (colList g c) then checkCols g rest else some (.dupCol c)

/-- Box scan of `validate_grid` (box origins in order br = 0,3,6 then bc = 0,3,6). -/
def checkBoxes (g : Grid) : List (Nat × Nat) → Option ValErr
  | [] => none
  | (br, bc) :: rest =>
    if is_valid_group (boxList g br bc) then checkBoxes g rest else some (.dupBox br bc)

/-- Box origins visited by `validate_grid`. -/
def boxOrigins : List (Nat × Nat) := [(0, 0), (0, 3), (0, 6), (3, 0), (3, 3), (3, 6), (6, 0), (6, 3), (6, 6)]

/-- `validate_grid`: `none` models a normal return, `some e` models the first
`ValueError` raised. -/
def validate_grid (g : Grid) : Option ValErr :=
  match checkRange g allCells with
  | some e => some e
  | none =>
    match checkRows g (List.range 9) with
    | some e => some e
    | none =>
      match checkCols g (List.range 9) with
      | some e => some e
      | none => checkBoxes g boxOrigins

/-!  Generator (generate_sudoku.py).  -/

inductive Difficulty where
  | easy | medium | hard | extreme
deriving DecidableEq

/-- The `DIFFICULTY_CLUES` table. -/
def DIFFICULTY_CLUES : Difficulty → Nat
  | .easy => 40
  | .medium => 32
  | .hard => 25
  | .extreme => 21

/-- The all-empty starting grid of `generate_full_grid`. -/
def zeroGrid : Grid := List.replicate 9 (List.replicate 9 0)

/-- `generate_full_grid`: run the randomized first-solution search on the
empty grid and return the grid (the boolean is ignored, as in the source). -/
def generate_full_grid (sup : List (List Int)) : Grid :=
  (solve_sudoku_with_stats zeroGrid sup).grid

/-- The removal loop of `generate_puzzle_base`: visit the (shuffled) cells,
stop once at most `clues` clues remain, clear a cell and keep the clearing
exactly when the counting search still reports a unique solution. -/
def reduceLoop (clues : Nat) : List (Nat × Nat) → Grid → Nat → Grid
  | [], p, _ => p
  | (r, c) :: rest, p, removed =>
    if 81 - removed ≤ clues then p
    else
      let backup := getCell p r c
      let p' := setCell p r c 0
      if (count_solutions p' 2).1 = 1 then reduceLoop clues rest p' (removed + 1)
      else reduceLoop clues rest (setCell p' r c backup) removed

/-- The Puzzle Reducer applied to a given full grid, with the shuffle outcome
`cells` made explicit. -/
def reduce_to_puzzle (full : Grid) (cells : List (Nat × Nat)) (clues : Nat) : Grid :=
  reduceLoop clues cells full 0

/-- `generate_puzzle_base(difficulty)` with the outcomes of the randomness
source (candidate orders of the full-grid search, shuffled cell order) made
explicit. -/
def generate_puzzle_base (d : Difficulty) (sup : List (List Int))
    (cells : List (Nat × Nat)) : Grid :=
  reduce_to_puzzle (generate_full_grid sup) cells (DIFFICULTY_CLUES d)

/-- Randomness consumed by one attempt of `generate_extreme_puzzle`. -/
structure AttemptR where
  genSupply : List (List Int)
  cellOrder : List (Nat × Nat)
  measureSupply : List (List Int)

/-- A fixed randomness source (ascending candidate orders, unshuffled cells),
used as a concrete witness input. -/
def constAttempt : Nat → AttemptR := fun _ => ⟨[], allCells, []⟩

/-- The puzzle one attempt builds. -/
def attemptPuzzle (a : AttemptR) : Grid :=
  generate_puzzle_base .extreme a.genSupply a.cellOrder

/-- The node count one attempt measures on a scratch copy of its puzzle. -/
def attemptNodes (a : AttemptR) : Nat :=
  (solve_sudoku_with_stats (attemptPuzzle a) a.measureSupply).nodes

/-- Attempt loop of `generate_extreme_puzzle`; `.error` models the final
`RuntimeError`. -/
def extremeLoop (min_nodes : Nat) (rand : Nat → AttemptR) :
    Nat → Nat → Except String Grid
  | 0, _ => .error "Failed to generate extreme puzzle"
  | k + 1, i =>
    if min_nodes ≤ attemptNodes (rand i) then .ok (attemptPuzzle (rand i))
    else extremeLoop min_nodes rand k (i + 1)

/-- `generate_extreme_puzzle(min_nodes, max_attempts)` under an explicit
randomness source. -/
def generate_extreme_puzzle (min_nodes max_attempts : Nat) (rand : Nat → AttemptR) :
    Except String Grid :=
  extremeLoop min_nodes rand max_attempts 0

/-!  Specification-level predicates.  -/

/-- No cell of the 9x9 grid is 0. -/
def Complete (g : Grid) : Prop := ∀ r < 9, ∀ c < 9, getCell g r c ≠ 0

instance : DecidablePred Complete := fun g => by
  unfold Complete
  infer_instance

/-- Every cell lies in [0, 9]. -/
def Cells09 (g : Grid) : Prop := ∀ r < 9, ∀ c < 9, 0 ≤ getCell g r c ∧ getCell g r c ≤ 9

instance : DecidablePred Cells09 := fun g => by
  unfold Cells09
  infer_instance

/-- Every cell lies in [1, 9]. -/
def Cells19 (g : Grid) : Prop := ∀ r < 9, ∀ c < 9, 1 ≤ getCell g r c ∧ getCell g r c ≤ 9

instance : DecidablePred Cells19 := fun g => by
  unfold Cells19
  infer_instance

/-- Two cells share a row, a column, or a 3x3 box. -/
def SameGroup (r₁ c₁ r₂ c₂ : Nat) : Prop :=
  r₁ = r₂ ∨ c₁ = c₂ ∨ (r₁ / 3 = r₂ / 3 ∧ c₁ / 3 = c₂ / 3)

instance : ∀ r₁ c₁ r₂ c₂, Decidable (SameGroup r₁ c₁ r₂ c₂) := fun _ _ _ _ => by
  unfold SameGroup
  infer_instance

/-- The cells (r₁, c₁) and (r₂, c₂) do not conflict: if they are distinct and
share a group, they do not hold the same non-zero digit. -/
def ConsistentAt (g : Grid) (r₁ c₁ r₂ c₂ : Nat) : Prop :=
  SameGroup r₁ c₁ r₂ c₂ → (r₁, c₁) ≠ (r₂, c₂) →
    getCell g r₁ c₁ ≠ 0 → getCell g r₁ c₁ ≠ getCell g r₂ c₂

instance : ∀ g r₁ c₁ r₂ c₂, Decidable (ConsistentAt g r₁ c₁ r₂ c₂) := fun _ _ _ _ _ => by
  unfold ConsistentAt
  infer_instance

/-- No two equal non-zero digits share a row, a column, or a 3x3 box. -/
def Consistent (g : Grid) : Prop :=
  ∀ r₁ < 9, ∀ c₁ < 9, ∀ r₂ < 9, ∀ c₂ < 9, ConsistentAt g r₁ c₁ r₂ c₂

instance : DecidablePred Consistent := fun g => by
  unfold Consistent
  infer_instance

/-- The non-zero cells of `g` keep their values in `g'`. -/
def Extends (g g' : Grid) : Prop :=
  ∀ r < 9, ∀ c < 9, getCell g r c ≠ 0 → getCell g' r c = getCell g r c

instance : ∀ g g', Decidable (Extends g g') := fun _ _ => by
  unfold Extends
  infer_instance

/-- `S` is a completed solution of the puzzle `g`: a well-formed, complete,
conflict-free grid of digits 1-9 that keeps every clue of `g`. -/
def Solution (S g : Grid) : Prop :=
  GridWF S ∧ Complete S ∧ Cells19 S ∧ Consistent S ∧ Extends g S

instance : ∀ S g, Decidable (Solution S g) := fun _ _ => by
  unfold Solution
  infer_instance

/-- A fixed solved grid, used as a concrete witness input. -/
def base9 : Grid :=
  [[1, 2, 3, 4, 5, 6, 7, 8, 9],
   [4, 5, 6, 7, 8, 9, 1, 2, 3],
   [7, 8, 9, 1, 2, 3, 4, 5, 6],
   [2, 3, 4, 5, 6, 7, 8, 9, 1],
   [5, 6, 7, 8, 9, 1, 2, 3, 4],
   [8, 9, 1, 2, 3, 4, 5, 6, 7],
   [3, 4, 5, 6, 7, 8, 9, 1, 2],
   [6, 7, 8, 9, 1, 2, 3, 4, 5],
   [9, 1, 2, 3, 4, 5, 6, 7, 8]]

/-- A grid on which the solver must backtrack and fail: cell (0,0) admits only
digit 1, after which cell (0,1) admits nothing. -/
def unsolvableGrid : Grid :=
  [[0, 0, 3, 4, 5, 6, 7, 3, 4],
   [8, 9, 2, 9, 9, 9, 9, 9, 9],
   [9, 9, 9, 9, 9, 9, 9, 9, 9],
   [9, 9, 9, 9, 9, 9, 9, 9, 9],
   [9, 9, 9, 9, 9, 9, 9, 9, 9],
   [9, 9, 9, 9, 9, 9, 9, 9, 9],
   [9, 9, 9, 9, 9, 9, 9, 9, 9],
   [9, 9, 9, 9, 9, 9, 9, 9, 9],
   [9, 9, 9, 9, 9, 9, 9, 9, 9]]

/-- On this grid the first empty cell (0,0) admits digits 1 and 2: digit 1
leads to exactly one completion, digit 2 to two; with limit 2 the counting
search therefore accumulates 1 + 2 = 3 before its cap test fires. -/
def overshootGrid : Grid :=
  [[0, 0, 5, 4, 5, 6, 7, 8, 9],
   [0, 0, 6, 5, 6, 7, 8, 9, 5],
   [7, 8, 9, 9, 9, 9, 9, 9, 9],
   [3, 1, 9, 9, 9, 9, 9, 9, 9],
   [5, 5, 9, 9, 9, 9, 9, 9, 9],
   [6, 6, 9, 9, 9, 9, 9, 9, 9],
   [7, 7, 9, 9, 9, 9, 9, 9, 9],
   [8, 8, 9, 9, 9, 9, 9, 9, 9],
   [9, 9, 9, 9, 9, 9, 9, 9, 9]]

/-- A two-hole grid whose solution places 2 then 1; an ascending first
candidate order wastes one placement on digit 1, a descending one does not,
so the node count depends on the drawn candidate orders. -/
def orderSensitiveGrid : Grid :=
  [[0, 0, 3, 4, 5, 6, 7, 3, 4],
   [8, 9, 3, 9, 9, 9, 9, 9, 9],
   [9, 9, 9, 9, 9, 9, 9, 9, 9],
   [9, 2, 9, 9, 9, 9, 9, 9, 9],
   [9, 9, 9, 9, 9, 9, 9, 9, 9],
   [9, 9, 9, 9, 9, 9, 9, 9, 9],
   [9, 9, 9, 9, 9, 9, 9, 9, 9],
   [9, 9, 9, 9, 9, 9, 9, 9, 9],
   [9, 9, 9, 9, 9, 9, 9, 9, 9]]

/-- The invariant maintained by every search: well-formed, digits in [0,9],
no conflicts. -/
def Inv (g : Grid) : Prop := GridWF g ∧ Cells09 g ∧ Consistent g

instance : DecidablePred Inv := fun g => by
  unfold Inv
  infer_instance

/-- The reducer only clears cells: every cell of its output is 0 or the
corresponding cell of its input. -/
def ClueSub (p full : Grid) : Prop :=
  ∀ r < 9, ∀ c < 9, getCell p r c = 0 ∨ getCell p r c = getCell full r c

/-- Some non-zero digit occurs at least twice in the group. -/
def GroupHasDup (l : List Int) : Prop := ∃ a : Int, a ≠ 0 ∧ 2 ≤ l.count a

/-!  Basic lemmas about cells, updates and the empty-cell scan.  -/

theorem list_set_getD {α : Type} (l : List α) (i : Nat) (d : α) :
    l.set i (l.getD i d) = l := by
  rcases Nat.lt_or_ge i l.length with h | h
  · rw [List.getD_eq_getElem?_getD, List.getElem?_eq_getElem h]
    apply List.ext_getElem (by simp)
    intro n h1 h2
    rw [List.getElem_set]
    split
    · simp_all
    · rfl
  · exact List.set_eq_of_length_le h

theorem list_getD_set_ne {α : Type} (l : List α) {i j : Nat} (h : i ≠ j) (a d : α) :
    (l.set i a).getD j d = l.getD j d := by
  rw [List.getD_eq_getElem?_getD, List.getD_eq_getElem?_getD, List.getElem?_set_ne h]

theorem list_getD_set_eq {α : Type} (l : List α) {i : Nat} (h : i < l.length) (a d : α) :
    (l.set i a).getD i d = a := by
  rw [List.getD_eq_getElem?_getD, List.getElem?_set_self h]
  rfl

theorem getCell_setCell_ne {g : Grid} {r c r' c' : Nat} (h : (r', c') ≠ (r, c)) (v : Int) :
    getCell (setCell g r c v) r' c' = getCell g r' c' := by
  unfold getCell setCell
  rcases eq_or_ne r' r with hr | hr
  · subst hr
    have hc : c ≠ c' := fun hc => h (by simp [hc])
    rcases Nat.lt_or_ge r' g.length with hlen | hlen
    · rw [list_getD_set_eq _ hlen, list_getD_set_ne _ hc]
    · rw [List.set_eq_of_length_le hlen]
  · rw [list_getD_set_ne _ (Ne.symm hr)]

theorem getCell_setCell_self {g : Grid} (hwf : GridWF g) {r c : Nat}
    (hr : r < 9) (hc : c < 9) (v : Int) :
    getCell (setCell g r c v) r c = v := by
  unfold getCell setCell
  have hlen : r < g.length := by rw [hwf.1]; exact hr
  rw [list_getD_set_eq _ hlen]
  have hrow : (g.getD r []).length = 9 := hwf.2 r hr
  rw [list_getD_set_eq _ (by rw [hrow]; exact hc)]

theorem getCell_setCell_cases (g : Grid) (r c r' c' : Nat) (v : Int) :
    getCell (setCell g r c v) r' c' = v ∨ getCell (setCell g r c v) r' c' = getCell g r' c' := by
  rcases eq_or_ne (r', c') (r, c) with h | h
  · obtain ⟨h1, h2⟩ := Prod.mk.injEq .. ▸ h
    subst h1; subst h2
    unfold getCell setCell
    rcases Nat.lt_or_ge r' g.length with hlen | hlen
    · rw [list_getD_set_eq _ hlen]
      rcases Nat.lt_or_ge c' (g.getD r' []).length with hclen | hclen
      · rw [list_getD_set_eq _ hclen]
        exact Or.inl rfl
      · rw [List.set_eq_of_length_le hclen]
        exact Or.inr rfl
    · rw [List.set_eq_of_length_le hlen]
      exact Or.inr rfl
  · exact Or.inr (getCell_setCell_ne h v)

theorem setCell_setCell (g : Grid) (r c : Nat) (v w : Int) :
    setCell (setCell g r c v) r c w = setCell g r c w := by
  unfold setCell
  rcases Nat.lt_or_ge r g.length with hlen | hlen
  · rw [list_getD_set_eq _ hlen, List.set_set, List.set_set]
  · rw [List.set_eq_of_length_le hlen, List.set_eq_of_length_le hlen]

theorem setCell_getCell_self (g : Grid) (r c : Nat) :
    setCell g r c (getCell g r c) = g := by
  unfold setCell getCell
  rw [list_set_getD, list_set_getD]

theorem setCell_zero_cancel {g : Grid} {r c : Nat} (h0 : getCell g r c = 0) (v : Int) :
    setCell (setCell g r c v) r c 0 = g := by
  rw [setCell_setCell, ← h0, setCell_getCell_self]

theorem GridWF_setCell {g : Grid} (hwf : GridWF g) (r c : Nat) (v : Int) :
    GridWF (setCell g r c v) := by
  obtain ⟨hlen, hrows⟩ := hwf
  constructor
  · unfold setCell
    rw [List.length_set]
    exact hlen
  · intro r' hr'
    unfold setCell
    rcases eq_or_ne r r' with hr | hr
    · subst hr
      rcases Nat.lt_or_ge r g.length with hl | hl
      · rw [list_getD_set_eq _ hl, List.length_set]
        exact hrows r hr'
      · rw [List.set_eq_of_length_le hl]
        exact hrows r hr'
    · rw [list_getD_set_ne _ hr]
      exact hrows r' hr'

theorem mem_allCells {r c : Nat} : (r, c) ∈ allCells ↔ r < 9 ∧ c < 9 := by
  unfold allCells
  rw [List.mem_map]
  constructor
  · rintro ⟨k, hk, he⟩
    rw [List.mem_range] at hk
    obtain ⟨h1, h2⟩ := Prod.mk.injEq .. ▸ he
    omega
  · rintro ⟨hr, hc⟩
    refine ⟨9 * r + c, ?_, ?_⟩
    · rw [List.mem_range]; omega
    · have h1 : (9 * r + c) / 9 = r := by omega
      have h2 : (9 * r + c) % 9 = c := by omega
      rw [h1, h2]

theorem find_empty_some {g : Grid} {r c : Nat} (h : find_empty g = some (r, c)) :
    r < 9 ∧ c < 9 ∧ getCell g r c = 0 := by
  unfold find_empty at h
  have hp := List.find?_some h
  have hm := List.mem_of_find?_eq_some h
  rw [mem_allCells] at hm
  simp only [beq_iff_eq] at hp
  exact ⟨hm.1, hm.2, hp⟩

theorem find_empty_none_iff {g : Grid} : find_empty g = none ↔ Complete g := by
  unfold find_empty Complete
  rw [List.find?_eq_none]
  constructor
  · intro h r hr c hc
    have := h (r, c) (mem_allCells.2 ⟨hr, hc⟩)
    simpa using this
  · intro h p hp
    rcases p with ⟨r, c⟩
    rw [mem_allCells] at hp
    simpa using h r hp.1 c hp.2

theorem find_empty_isSome {g : Grid} {r c : Nat} (hr : r < 9) (hc : c < 9)
    (h0 : getCell g r c = 0) : (find_empty g).isSome := by
  unfold find_empty
  rw [List.find?_isSome]
  exact ⟨(r, c), mem_allCells.2 ⟨hr, hc⟩, by simpa using h0⟩

theorem Extends_refl (g : Grid) : Extends g g := fun _ _ _ _ _ => rfl

theorem Extends_trans {g₁ g₂ g₃ : Grid} (h12 : Extends g₁ g₂) (h23 : Extends g₂ g₃) :
    Extends g₁ g₃ := by
  intro r hr c hc hne
  rw [h23 r hr c hc (by rw [h12 r hr c hc hne]; exact hne), h12 r hr c hc hne]

theorem Extends_setCell_zero {g : Grid} {r c : Nat} (h0 : getCell g r c = 0) (v : Int) :
    Extends g (setCell g r c v) := by
  intro r' hr' c' hc' hne
  apply getCell_setCell_ne
  intro h
  obtain ⟨h1, h2⟩ := Prod.mk.injEq .. ▸ h
  rw [h1, h2] at hne
  exact hne h0

/-!  Grid restoration: the counting search always hands back the grid it was
given, the first-solution searches do so whenever they fail, and on success
they only fill cells that were empty.  -/

theorem countLoop_snd {f : Grid → Nat × Grid} {limit r c : Nat} {g : Grid}
    (h0 : getCell g r c = 0) (hf : ∀ g', (f g').2 = g') :
    ∀ (ds : List Int) (count : Nat), (countLoop f limit r c ds count g).2 = g := by
  intro ds
  induction ds with
  | nil => intro count; rfl
  | cons d ds ih =>
    intro count
    simp only [countLoop]
    split
    · rw [hf (setCell g r c d), setCell_zero_cancel h0]
      split
      · rfl
      · exact ih _
    · exact ih _

theorem countSolsF_snd : ∀ (fuel : Nat) (g : Grid) (limit : Nat),
    (countSolsF fuel g limit).2 = g := by
  intro fuel
  induction fuel with
  | zero => intro g limit; rfl
  | succ fuel ih =>
    intro g limit
    simp only [countSolsF]
    cases he : find_empty g with
    | none => rfl
    | some p =>
      rcases p with ⟨r, c⟩
      have h0 := (find_empty_some he).2.2
      exact countLoop_snd h0 (fun g' => ih g' limit) digits 0

theorem solveLoop_spec {f : Grid → Nat → SolveRes} {r c : Nat} {g : Grid}
    (h0 : getCell g r c = 0)
    (hf : ∀ g' a', ((f g' a').ok = false → (f g' a').grid = g') ∧
      ((f g' a').ok = true → find_empty (f g' a').grid = none ∧ Extends g' (f g' a').grid)) :
    ∀ (ds : List Int) (att : Nat),
      ((solveLoop f r c ds g att).ok = false → (solveLoop f r c ds g att).grid = g) ∧
      ((solveLoop f r c ds g att).ok = true →
        find_empty (solveLoop f r c ds g att).grid = none ∧
        Extends g (solveLoop f r c ds g att).grid) := by
  intro ds
  induction ds with
  | nil => intro att; exact ⟨fun _ => rfl, fun h => by simp [solveLoop] at h⟩
  | cons d ds ih =>
    intro att
    simp only [solveLoop]
    split
    · cases hok : (f (setCell g r c d) (att + 1)).ok with
      | true =>
        rw [if_pos rfl]
        refine ⟨fun h => (by rw [hok] at h; cases h), fun _ => ?_⟩
        have hs := (hf (setCell g r c d) (att + 1)).2 hok
        exact ⟨hs.1, Extends_trans (Extends_setCell_zero h0 d) hs.2⟩
      | false =>
        rw [if_neg Bool.false_ne_true]
        rw [(hf (setCell g r c d) (att + 1)).1 hok, setCell_zero_cancel h0]
        exact ih _
    · exact ih _

theorem solveF_spec : ∀ (fuel : Nat) (g : Grid) (att : Nat),
    (((solveF fuel g att).ok = false → (solveF fuel g att).grid = g) ∧
     ((solveF fuel g att).ok = true →
       find_empty (solveF fuel g att).grid = none ∧ Extends g (solveF fuel g att).grid)) := by
  intro fuel
  induction fuel with
  | zero => intro g att; exact ⟨fun _ => rfl, fun h => (by cases h)⟩
  | succ fuel ih =>
    intro g att
    simp only [solveF]
    cases he : find_empty g with
    | none => exact ⟨fun h => (by cases h), fun _ => ⟨he, Extends_refl g⟩⟩
    | some p =>
      rcases p with ⟨r, c⟩
      have h0 := (find_empty_some he).2.2
      exact solveLoop_spec h0 (fun g' a' => ih g' a') digits att

theorem statsLoop_spec {f : Grid → List (List Int) → Nat → StatsRes} {r c : Nat} {g : Grid}
    (h0 : getCell g r c = 0)
    (hf : ∀ g' s' n', ((f g' s' n').ok = false → (f g' s' n').grid = g') ∧
      ((f g' s' n').ok = true → find_empty (f g' s' n').grid = none ∧ Extends g' (f g' s' n').grid)) :
    ∀ (ds : List Int) (sup : List (List Int)) (nodes : Nat),
      ((statsLoop f r c ds g sup nodes).ok = false → (statsLoop f r c ds g sup nodes).grid = g) ∧
      ((statsLoop f r c ds g sup nodes).ok = true →
        find_empty (statsLoop f r c ds g sup nodes).grid = none ∧
        Extends g (statsLoop f r c ds g sup nodes).grid) := by
  intro ds
  induction ds with
  | nil => intro sup nodes; exact ⟨fun _ => rfl, fun h => by simp [statsLoop] at h⟩
  | cons d ds ih =>
    intro sup nodes
    simp only [statsLoop]
    split
    · cases hok : (f (setCell g r c d) sup (nodes + 1)).ok with
      | true =>
        rw [if_pos rfl]
        refine ⟨fun h => (by rw [hok] at h; cases h), fun _ => ?_⟩
        have hs := (hf (setCell g r c d) sup (nodes + 1)).2 hok
        exact ⟨hs.1, Extends_trans (Extends_setCell_zero h0 d) hs.2⟩
      | false =>
        rw [if_neg Bool.false_ne_true]
        rw [(hf (setCell g r c d) sup (nodes + 1)).1 hok, setCell_zero_cancel h0]
        exact ih _ _
    · exact ih _ _

theorem solveStatsF_spec : ∀ (fuel : Nat) (g : Grid) (sup : List (List Int)) (nodes : Nat),
    (((solveStatsF fuel g sup nodes).ok = false → (solveStatsF fuel g sup nodes).grid = g) ∧
     ((solveStatsF fuel g sup nodes).ok = true →
       find_empty (solveStatsF fuel g sup nodes).grid = none ∧
       Extends g (solveStatsF fuel g sup nodes).grid)) := by
  intro fuel
  induction fuel with
  | zero => intro g sup nodes; exact ⟨fun _ => rfl, fun h => (by cases h)⟩
  | succ fuel ih =>
    intro g sup nodes
    simp only [solveStatsF]
    cases he : find_empty g with
    | none => exact ⟨fun h => (by cases h), fun _ => ⟨he, Extends_refl g⟩⟩
    | some p =>
      rcases p with ⟨r, c⟩
      have h0 := (find_empty_some he).2.2
      exact statsLoop_spec h0 (fun g' s' n' => ih g' s' n') (sup.headD digits) sup.tail nodes

/-!  Counting empty cells.  -/

theorem allCells_nodup : allCells.Nodup := by decide

theorem allCells_length : allCells.length = 81 := by decide

theorem numEmpty_le (g : Grid) : numEmpty g ≤ 81 := by
  unfold numEmpty
  calc (allCells.filter _).length ≤ allCells.length := List.length_filter_le _ _
  _ = 81 := allCells_length

theorem numEmpty_pos {g : Grid} {r c : Nat} (h : find_empty g = some (r, c)) :
    1 ≤ numEmpty g := by
  obtain ⟨hr, hc, h0⟩ := find_empty_some h
  unfold numEmpty
  have hm : (r, c) ∈ allCells.filter (fun p => getCell g p.1 p.2 == 0) :=
    List.mem_filter.2 ⟨mem_allCells.2 ⟨hr, hc⟩, by simpa using h0⟩
  exact List.length_pos.2 (List.ne_nil_of_mem hm)

theorem numEmpty_setCell {g : Grid} (hwf : GridWF g) {r c : Nat} {d : Int}
    (hr : r < 9) (hc : c < 9) (h0 : getCell g r c = 0) (hd : d ≠ 0) :
    numEmpty (setCell g r c d) + 1 = numEmpty g := by
  obtain ⟨s, t, hst⟩ := List.append_of_mem (mem_allCells.2 ⟨hr, hc⟩)
  have hnd := allCells_nodup
  rw [hst] at hnd
  rw [List.nodup_append] at hnd
  have hns : (r, c) ∉ s := fun hmem => hnd.2.2 hmem (List.mem_cons_self _ _)
  have hnt : (r, c) ∉ t := (List.nodup_cons.1 hnd.2.1).1
  have hcongr : ∀ u : List (Nat × Nat), (r, c) ∉ u →
      u.filter (fun p => getCell (setCell g r c d) p.1 p.2 == 0) =
      u.filter (fun p => getCell g p.1 p.2 == 0) := by
    intro u hu
    apply List.filter_congr
    intro p hp
    have hne : (p.1, p.2) ≠ (r, c) := by
      intro h
      apply hu
      have hp2 : p = (r, c) := by
        cases p
        simpa using h
      rwa [hp2] at hp
    rw [getCell_setCell_ne hne]
  unfold numEmpty
  rw [hst, List.filter_append, List.filter_append, List.filter_cons, List.filter_cons]
  have hold : (getCell g r c == 0) = true := by simpa using h0
  have hnew : (getCell (setCell g r c d) r c == 0) = false := by
    rw [getCell_setCell_self hwf hr hc]
    simpa using hd
  simp only [hold, hnew, if_true, if_false, hcongr s hns, hcongr t hnt]
  simp [List.length_append]
  omega

/-!  The cap behaviour of the counting search (C2).  -/

theorem digits_ne_zero : ∀ d ∈ digits, d ≠ 0 := by decide

theorem countLoop_le {f : Grid → Nat × Grid} {limit r c : Nat} {g : Grid} {B : Nat}
    (h0 : getCell g r c = 0) (hrest : ∀ g', (f g').2 = g') :
    ∀ (ds : List Int), (∀ d ∈ ds, is_valid_move g r c d = true → (f (setCell g r c d)).1 ≤ B) →
      ∀ count, count + 1 ≤ limit → (countLoop f limit r c ds count g).1 ≤ limit - 1 + B := by
  intro ds
  induction ds with
  | nil => intro _ count hcount; simp only [countLoop]; omega
  | cons d ds ih =>
    intro hf count hcount
    simp only [countLoop]
    split
    · rename_i hvalid
      rw [hrest (setCell g r c d), setCell_zero_cancel h0]
      have hsub := hf d (List.mem_cons_self _ _) hvalid
      split
      · simp only []
        omega
      · rename_i hnocap
        exact ih (fun d' hd' => hf d' (List.mem_cons_of_mem _ hd')) _ (by omega)
    · exact ih (fun d' hd' => hf d' (List.mem_cons_of_mem _ hd')) count hcount

theorem countSolsF_le {limit : Nat} (hlim : 1 ≤ limit) :
    ∀ (fuel : Nat) (g : Grid), GridWF g →
      (countSolsF fuel g limit).1 ≤ (limit - 1) * numEmpty g + 1 := by
  intro fuel
  induction fuel with
  | zero => intro g _; exact Nat.zero_le _
  | succ fuel ih =>
    intro g hwf
    cases he : find_empty g with
    | none =>
      have hred : countSolsF (fuel + 1) g limit = (1, g) := by
        simp [countSolsF, he]
      rw [hred]
      omega
    | some p =>
      rcases p with ⟨r, c⟩
      have hred : countSolsF (fuel + 1) g limit =
          countLoop (fun g' => countSolsF fuel g' limit) limit r c digits 0 g := by
        simp [countSolsF, he]
      rw [hred]
      obtain ⟨hr, hc, h0⟩ := find_empty_some he
      have hone := numEmpty_pos he
      obtain ⟨e', he'⟩ : ∃ e', numEmpty g = e' + 1 := ⟨numEmpty g - 1, by omega⟩
      have hB : ∀ d ∈ digits, is_valid_move g r c d = true →
          (countSolsF fuel (setCell g r c d) limit).1 ≤ (limit - 1) * e' + 1 := by
        intro d hd _
        have hne := numEmpty_setCell hwf hr hc h0 (digits_ne_zero d hd)
        have := ih (setCell g r c d) (GridWF_setCell hwf r c d)
        rw [show numEmpty (setCell g r c d) = e' from by omega] at this
        exact this
      have := countLoop_le h0 (fun g' => countSolsF_snd fuel g' limit) digits hB 0 hlim
      rw [he', Nat.mul_succ]
      omega

/-- C2 (amended): with limit ≥ 1 the counting search short-circuits as soon
as the accumulated count reaches the limit, but because each subtree's
(possibly capped) count is added before the cap test, the returned value can
exceed the limit; it is only bounded by (limit - 1) * (number of empty
cells) + 1. -/
theorem count_solutions_cap (g : Grid) (limit : Nat) (hwf : GridWF g) (hlim : 1 ≤ limit) :
    (count_solutions g limit).1 ≤ (limit - 1) * numEmpty g + 1 ∧
    (∀ (f : Grid → Nat × Grid) (r c : Nat) (d : Int) (ds : List Int) (count : Nat) (g' : Grid),
      is_valid_move g' r c d = true → limit ≤ count + (f (setCell g' r c d)).1 →
      countLoop f limit r c (d :: ds) count g' =
        (count + (f (setCell g' r c d)).1, setCell (f (setCell g' r c d)).2 r c 0)) := by
  constructor
  · exact countSolsF_le hlim 82 g hwf
  · intro f r c d ds count g' hvalid hcap
    simp only [countLoop, hvalid, if_true, if_pos hcap]

theorem count_solutions_cap_witness :
    (count_solutions overshootGrid 2).1 ≤ (2 - 1) * numEmpty overshootGrid + 1 :=
  (count_solutions_cap overshootGrid 2 (by decide) (by decide)).1

/-- C2 counterexample: on this grid the counting search with limit 2 returns
3, so its return value is not capped at the limit. -/
theorem count_solutions_exceeds_limit : (count_solutions overshootGrid 2).1 = 3 := by decide

/-!  Fuel stability: once the fuel exceeds the number of empty cells, the
result of each search no longer depends on it (C9).  -/

theorem valid_move_not_contains {g : Grid} {r c : Nat} {d : Int}
    (hv : is_valid_move g r c d = true) : (g.getD r []).contains d = false := by
  by_cases h : (g.getD r []).contains d = true
  · rw [is_valid_move, if_pos h] at hv
    cases hv
  · simpa using h

theorem valid_move_ne_zero {g : Grid} (hwf : GridWF g) {r c : Nat} {d : Int}
    (hr : r < 9) (hc : c < 9) (h0 : getCell g r c = 0)
    (hv : is_valid_move g r c d = true) : d ≠ 0 := by
  intro hd
  subst hd
  have hmem : (0 : Int) ∈ g.getD r [] := by
    have hlen : c < (g.getD r []).length := by rw [hwf.2 r hr]; exact hc
    rw [getCell, List.getD_eq_getElem?_getD, List.getElem?_eq_getElem hlen] at h0
    exact h0 ▸ List.getElem_mem hlen
  have := valid_move_not_contains hv
  rw [List.contains_eq_any_beq] at this
  simp only [List.any_eq_false] at this
  have h2 := this 0 hmem
  simp at h2

theorem countLoop_congr {f₁ f₂ : Grid → Nat × Grid} {limit r c : Nat} {g : Grid}
    (h0 : getCell g r c = 0) (hrest : ∀ g', (f₁ g').2 = g') :
    ∀ ds : List Int,
      (∀ d ∈ ds, is_valid_move g r c d = true → f₁ (setCell g r c d) = f₂ (setCell g r c d)) →
      ∀ count, countLoop f₁ limit r c ds count g = countLoop f₂ limit r c ds count g := by
  intro ds
  induction ds with
  | nil => intro _ count; rfl
  | cons d ds ih =>
    intro hf count
    simp only [countLoop]
    split
    · rename_i hvalid
      rw [← hf d (List.mem_cons_self _ _) hvalid, hrest (setCell g r c d), setCell_zero_cancel h0]
      split
      · rfl
      · exact ih (fun d' hd' => hf d' (List.mem_cons_of_mem _ hd')) _
    · exact ih (fun d' hd' => hf d' (List.mem_cons_of_mem _ hd')) count

theorem solveLoop_congr {f₁ f₂ : Grid → Nat → SolveRes} {r c : Nat} {g : Grid}
    (h0 : getCell g r c = 0)
    (hrest : ∀ g' a', (f₁ g' a').ok = false → (f₁ g' a').grid = g') :
    ∀ ds : List Int,
      (∀ d ∈ ds, is_valid_move g r c d = true →
        ∀ a', f₁ (setCell g r c d) a' = f₂ (setCell g r c d) a') →
      ∀ att, solveLoop f₁ r c ds g att = solveLoop f₂ r c ds g att := by
  intro ds
  induction ds with
  | nil => intro _ att; rfl
  | cons d ds ih =>
    intro hf att
    simp only [solveLoop]
    split
    · rename_i hvalid
      rw [← hf d (List.mem_cons_self _ _) hvalid (att + 1)]
      cases hok : (f₁ (setCell g r c d) (att + 1)).ok with
      | true => rw [if_pos rfl, if_pos rfl]
      | false =>
        rw [if_neg Bool.false_ne_true, hrest (setCell g r c d) (att + 1) hok,
          setCell_zero_cancel h0]
        exact ih (fun d' hd' => hf d' (List.mem_cons_of_mem _ hd')) _
    · exact ih (fun d' hd' => hf d' (List.mem_cons_of_mem _ hd')) _

theorem statsLoop_congr {f₁ f₂ : Grid → List (List Int) → Nat → StatsRes} {r c : Nat} {g : Grid}
    (h0 : getCell g r c = 0)
    (hrest : ∀ g' s' n', (f₁ g' s' n').ok = false → (f₁ g' s' n').grid = g') :
    ∀ ds : List Int,
      (∀ d ∈ ds, is_valid_move g r c d = true →
        ∀ s' n', f₁ (setCell g r c d) s' n' = f₂ (setCell g r c d) s' n') →
      ∀ sup nodes, statsLoop f₁ r c ds g sup nodes = statsLoop f₂ r c ds g sup nodes := by
  intro ds
  induction ds with
  | nil => intro _ sup nodes; rfl
  | cons d ds ih =>
    intro hf sup nodes
    simp only [statsLoop]
    split
    · rename_i hvalid
      rw [← hf d (List.mem_cons_self _ _) hvalid sup (nodes + 1)]
      cases hok : (f₁ (setCell g r c d) sup (nodes + 1)).ok with
      | true => rw [if_pos rfl, if_pos rfl]
      | false =>
        rw [if_neg Bool.false_ne_true, hrest (setCell g r c d) sup (nodes + 1) hok,
          setCell_zero_cancel h0]
        exact ih (fun d' hd' => hf d' (List.mem_cons_of_mem _ hd')) _ _
    · exact ih (fun d' hd' => hf d' (List.mem_cons_of_mem _ hd')) _ _

theorem countSolsF_stable {limit : Nat} :
    ∀ fuel₁ fuel₂ (g : Grid), GridWF g → numEmpty g < fuel₁ → numEmpty g < fuel₂ →
      countSolsF fuel₁ g limit = countSolsF fuel₂ g limit := by
  intro fuel₁
  induction fuel₁ with
  | zero => intro fuel₂ g _ h1 _; omega
  | succ n ih =>
    intro fuel₂ g hwf h1 h2
    cases fuel₂ with
    | zero => omega
    | succ m =>
      cases he : find_empty g with
      | none => simp [countSolsF, he]
      | some p =>
        rcases p with ⟨r, c⟩
        obtain ⟨hr, hc, h0⟩ := find_empty_some he
        have hred₁ : countSolsF (n + 1) g limit =
            countLoop (fun g' => countSolsF n g' limit) limit r c digits 0 g := by
          simp [countSolsF, he]
        have hred₂ : countSolsF (m + 1) g limit =
            countLoop (fun g' => countSolsF m g' limit) limit r c digits 0 g := by
          simp [countSolsF, he]
        rw [hred₁, hred₂]
        apply countLoop_congr h0 (fun g' => countSolsF_snd n g' limit)
        intro d hd _
        have hne := numEmpty_setCell hwf hr hc h0 (digits_ne_zero d hd)
        exact ih m (setCell g r c d) (GridWF_setCell hwf r c d) (by omega) (by omega)

theorem solveF_stable :
    ∀ fuel₁ fuel₂ (g : Grid), GridWF g → numEmpty g < fuel₁ → numEmpty g < fuel₂ →
      ∀ att, solveF fuel₁ g att = solveF fuel₂ g att := by
  intro fuel₁
  induction fuel₁ with
  | zero => intro fuel₂ g _ h1 _ _; omega
  | succ n ih =>
    intro fuel₂ g hwf h1 h2 att
    cases fuel₂ with
    | zero => omega
    | succ m =>
      cases he : find_empty g with
      | none => simp [solveF, he]
      | some p =>
        rcases p with ⟨r, c⟩
        obtain ⟨hr, hc, h0⟩ := find_empty_some he
        have hred₁ : solveF (n + 1) g att = solveLoop (solveF n) r c digits g att := by
          simp [solveF, he]
        have hred₂ : solveF (m + 1) g att = solveLoop (solveF m) r c digits g att := by
          simp [solveF, he]
        rw [hred₁, hred₂]
        apply solveLoop_congr h0 (fun g' a' => (solveF_spec n g' a').1)
        intro d hd _ a'
        have hne := numEmpty_setCell hwf hr hc h0 (digits_ne_zero d hd)
        exact ih m (setCell g r c d) (GridWF_setCell hwf r c d) (by omega) (by omega) a'

theorem solveStatsF_stable :
    ∀ fuel₁ fuel₂ (g : Grid), GridWF g → numEmpty g < fuel₁ → numEmpty g < fuel₂ →
      ∀ sup nodes, solveStatsF fuel₁ g sup nodes = solveStatsF fuel₂ g sup nodes := by
  intro fuel₁
  induction fuel₁ with
  | zero => intro fuel₂ g _ h1 _ _ _; omega
  | succ n ih =>
    intro fuel₂ g hwf h1 h2 sup nodes
    cases fuel₂ with
    | zero => omega
    | succ m =>
      cases he : find_empty g with
      | none => simp [solveStatsF, he]
      | some p =>
        rcases p with ⟨r, c⟩
        obtain ⟨hr, hc, h0⟩ := find_empty_some he
        have hred₁ : solveStatsF (n + 1) g sup nodes =
            statsLoop (solveStatsF n) r c (sup.headD digits) g sup.tail nodes := by
          simp [solveStatsF, he]
        have hred₂ : solveStatsF (m + 1) g sup nodes =
            statsLoop (solveStatsF m) r c (sup.headD digits) g sup.tail nodes := by
          simp [solveStatsF, he]
        rw [hred₁, hred₂]
        apply statsLoop_congr h0 (fun g' s' n' => (solveStatsF_spec n g' s' n').1)
        intro d hd hv s' n'
        have hne := numEmpty_setCell hwf hr hc h0 (valid_move_ne_zero hwf hr hc h0 hv)
        exact ih m (setCell g r c d) (GridWF_setCell hwf r c d) (by omega) (by omega) s' n'

/-!  Characterization of `is_valid_move` and preservation of consistency.  -/

theorem getCell_getElem? {g : Grid} (hwf : GridWF g) {r c : Nat} (hr : r < 9) (hc : c < 9) :
    (g.getD r [])[c]? = some (getCell g r c) := by
  have hlen : c < (g.getD r []).length := by rw [hwf.2 r hr]; exact hc
  rw [List.getElem?_eq_getElem hlen]
  congr 1
  unfold getCell
  rw [List.getD_eq_getElem (g.getD r []) 0 hlen]

theorem mem_row_iff {g : Grid} (hwf : GridWF g) {r : Nat} (hr : r < 9) (d : Int) :
    d ∈ g.getD r [] ↔ ∃ c < 9, getCell g r c = d := by
  constructor
  · intro hm
    obtain ⟨c, hcn⟩ := List.mem_iff_getElem?.1 hm
    have hlen : c < (g.getD r []).length := by
      by_contra hge
      rw [List.getElem?_eq_none (by omega)] at hcn
      cases hcn
    have hc9 : c < 9 := by rwa [hwf.2 r hr] at hlen
    refine ⟨c, hc9, ?_⟩
    have := getCell_getElem? hwf hr hc9
    rw [this] at hcn
    exact (Option.some.injEq _ _ ▸ hcn)
  · rintro ⟨c, hc, hval⟩
    rw [← hval]
    exact List.mem_iff_getElem?.2 ⟨c, getCell_getElem? hwf hr hc⟩

theorem is_valid_move_split (g : Grid) (r c : Nat) (d : Int) :
    is_valid_move g r c d = true ↔
      ((g.getD r []).contains d = false ∧
       (List.range 9).any (fun x => getCell g x c == d) = false ∧
       (List.range 3).any (fun i => (List.range 3).any (fun j =>
         getCell g (r / 3 * 3 + i) (c / 3 * 3 + j) == d)) = false) := by
  by_cases h1 : (g.getD r []).contains d = true
  · simp [is_valid_move, h1]
  · by_cases h2 : (List.range 9).any (fun x => getCell g x c == d) = true
    · simp [is_valid_move, h1, h2]
    · by_cases h3 : (List.range 3).any (fun i => (List.range 3).any (fun j =>
          getCell g (r / 3 * 3 + i) (c / 3 * 3 + j) == d)) = true
      · simp [is_valid_move, h1, h2, h3]
      · simp [is_valid_move, h1, h2, h3]

theorem is_valid_move_iff {g : Grid} (hwf : GridWF g) {r c : Nat} (hr : r < 9) (hc : c < 9)
    (d : Int) :
    is_valid_move g r c d = true ↔
      ∀ r₂ < 9, ∀ c₂ < 9, SameGroup r c r₂ c₂ → getCell g r₂ c₂ ≠ d := by
  rw [is_valid_move_split]
  constructor
  · rintro ⟨hrow, hcol, hbox⟩ r₂ hr₂ c₂ hc₂ hsg heq
    rcases hsg with hsr | hsc | ⟨hbr, hbc⟩
    · subst hsr
      have : d ∈ g.getD r [] := (mem_row_iff hwf hr d).2 ⟨c₂, hc₂, heq⟩
      rw [List.contains_eq_any_beq] at hrow
      rw [List.any_eq_false] at hrow
      have h2 := hrow d this
      simp at h2
    · subst hsc
      rw [List.any_eq_false] at hcol
      have := hcol r₂ (List.mem_range.2 hr₂)
      simp only [beq_iff_eq] at this
      exact this heq
    · rw [List.any_eq_false] at hbox
      have hi : r₂ % 3 < 3 := Nat.mod_lt _ (by omega)
      have hj : c₂ % 3 < 3 := Nat.mod_lt _ (by omega)
      have := hbox (r₂ % 3) (List.mem_range.2 hi)
      rw [Bool.not_eq_true, List.any_eq_false] at this
      have h2 := this (c₂ % 3) (List.mem_range.2 hj)
      simp only [beq_iff_eq] at h2
      apply h2
      have e1 : r / 3 * 3 + r₂ % 3 = r₂ := by omega
      have e2 : c / 3 * 3 + c₂ % 3 = c₂ := by omega
      rw [e1, e2]
      exact heq
  · intro h
    refine ⟨?_, ?_, ?_⟩
    · by_contra hcon
      have : (g.getD r []).contains d = true := by
        cases hx : (g.getD r []).contains d
        · exact absurd hx hcon
        · rfl
      rw [List.contains_eq_any_beq, List.any_eq_true] at this
      obtain ⟨x, hx, hbeq⟩ := this
      have hdx : d = x := by simpa using hbeq
      subst hdx
      obtain ⟨c₂, hc₂, hval⟩ := (mem_row_iff hwf hr d).1 hx
      exact h r hr c₂ hc₂ (Or.inl rfl) hval
    · rw [List.any_eq_false]
      intro x hx
      simp only [beq_iff_eq]
      exact h x (List.mem_range.1 hx) c hc (Or.inr (Or.inl rfl))
    · rw [List.any_eq_false]
      intro i hi
      rw [Bool.not_eq_true, List.any_eq_false]
      intro j hj
      simp only [beq_iff_eq]
      have hi3 := List.mem_range.1 hi
      have hj3 := List.mem_range.1 hj
      apply h (r / 3 * 3 + i) (by omega) (c / 3 * 3 + j) (by omega)
      right; right
      constructor <;> omega

theorem SameGroup_symm {r₁ c₁ r₂ c₂ : Nat} (h : SameGroup r₁ c₁ r₂ c₂) :
    SameGroup r₂ c₂ r₁ c₁ := by
  rcases h with h | h | ⟨h1, h2⟩
  · exact Or.inl h.symm
  · exact Or.inr (Or.inl h.symm)
  · exact Or.inr (Or.inr ⟨h1.symm, h2.symm⟩)

theorem Consistent_setCell_valid {g : Grid} (hwf : GridWF g) {r c : Nat}
    (hr : r < 9) (hc : c < 9) (h0 : getCell g r c = 0) {d : Int} (hd : d ≠ 0)
    (hv : is_valid_move g r c d = true) (hcons : Consistent g) :
    Consistent (setCell g r c d) := by
  have hchar := (is_valid_move_iff hwf hr hc d).1 hv
  intro r₁ hr₁ c₁ hc₁ r₂ hr₂ c₂ hc₂ hsg hne h₁ heq
  rcases eq_or_ne (r₁, c₁) (r, c) with he₁ | he₁
  · obtain ⟨e1, e2⟩ := Prod.mk.injEq .. ▸ he₁
    subst e1; subst e2
    rw [getCell_setCell_self hwf hr hc] at heq
    rw [getCell_setCell_ne (Ne.symm hne) d] at heq
    exact hchar r₂ hr₂ c₂ hc₂ hsg heq.symm
  · rw [getCell_setCell_ne he₁ d] at h₁ heq
    rcases eq_or_ne (r₂, c₂) (r, c) with he₂ | he₂
    · obtain ⟨e1, e2⟩ := Prod.mk.injEq .. ▸ he₂
      subst e1; subst e2
      rw [getCell_setCell_self hwf hr hc] at heq
      exact hchar r₁ hr₁ c₁ hc₁ (SameGroup_symm hsg) heq
    · rw [getCell_setCell_ne he₂ d] at heq
      exact hcons r₁ hr₁ c₁ hc₁ r₂ hr₂ c₂ hc₂ hsg hne h₁ heq

theorem Consistent_setCell_zero {g : Grid} (hcons : Consistent g) (r c : Nat) :
    Consistent (setCell g r c 0) := by
  intro r₁ hr₁ c₁ hc₁ r₂ hr₂ c₂ hc₂ hsg hne h₁ heq
  rcases getCell_setCell_cases g r c r₁ c₁ 0 with hv₁ | hv₁
  · exact h₁ hv₁
  · rw [hv₁] at h₁ heq
    rcases getCell_setCell_cases g r c r₂ c₂ 0 with hv₂ | hv₂
    · rw [hv₂] at heq
      exact h₁ heq
    · rw [hv₂] at heq
      exact hcons r₁ hr₁ c₁ hc₁ r₂ hr₂ c₂ hc₂ hsg hne h₁ heq

theorem Cells09_setCell {g : Grid} (h : Cells09 g) {d : Int} (hd0 : 0 ≤ d) (hd9 : d ≤ 9)
    (r c : Nat) : Cells09 (setCell g r c d) := by
  intro r' hr' c' hc'
  rcases getCell_setCell_cases g r c r' c' d with hv | hv
  · rw [hv]; exact ⟨hd0, hd9⟩
  · rw [hv]; exact h r' hr' c' hc'

/-!  Soundness: the searches preserve well-formedness, the digit range and
consistency, so a successful search returns a valid grid.  -/

theorem digits_bounds : ∀ d ∈ digits, 1 ≤ d ∧ d ≤ 9 := by decide

theorem Inv_place {g : Grid} (hinv : Inv g) {r c : Nat} (hr : r < 9) (hc : c < 9)
    (h0 : getCell g r c = 0) {d : Int} (hd1 : 1 ≤ d) (hd9 : d ≤ 9)
    (hv : is_valid_move g r c d = true) : Inv (setCell g r c d) :=
  ⟨GridWF_setCell hinv.1 r c d, Cells09_setCell hinv.2.1 (by omega) hd9 r c,
   Consistent_setCell_valid hinv.1 hr hc h0 (by omega) hv hinv.2.2⟩

theorem statsLoop_supply_suffix {f : Grid → List (List Int) → Nat → StatsRes} {r c : Nat}
    (hsufx : ∀ g' s' n', (f g' s' n').supply <:+ s') :
    ∀ (ds : List Int) (g : Grid) (sup : List (List Int)) (nodes : Nat),
      (statsLoop f r c ds g sup nodes).supply <:+ sup := by
  intro ds
  induction ds with
  | nil => intro g sup nodes; exact List.suffix_refl sup
  | cons d ds ih =>
    intro g sup nodes
    simp only [statsLoop]
    split
    · by_cases hok : (f (setCell g r c d) sup (nodes + 1)).ok = true
      · rw [if_pos hok]
        exact hsufx _ _ _
      · rw [if_neg hok]
        exact (ih _ _ _).trans (hsufx _ _ _)
    · exact ih _ _ _

theorem solveStatsF_supply_suffix :
    ∀ (fuel : Nat) (g : Grid) (sup : List (List Int)) (nodes : Nat),
      (solveStatsF fuel g sup nodes).supply <:+ sup := by
  intro fuel
  induction fuel with
  | zero => intro g sup nodes; exact List.suffix_refl sup
  | succ fuel ih =>
    intro g sup nodes
    cases hfe : find_empty g with
    | none =>
      have hred : solveStatsF (fuel + 1) g sup nodes = ⟨true, g, sup, nodes⟩ := by
        simp [solveStatsF, hfe]
      rw [hred]
    | some p =>
      rcases p with ⟨r, c⟩
      have hred : solveStatsF (fuel + 1) g sup nodes =
          statsLoop (solveStatsF fuel) r c (sup.headD digits) g sup.tail nodes := by
        simp [solveStatsF, hfe]
      rw [hred]
      exact (statsLoop_supply_suffix (fun g' s' n' => ih g' s' n') _ g sup.tail nodes).trans
        (List.tail_suffix sup)

theorem statsLoop_sound {f : Grid → List (List Int) → Nat → StatsRes} {r c : Nat} {g : Grid}
    (hr : r < 9) (hc : c < 9) (h0 : getCell g r c = 0)
    (hf : ∀ g' s' n', Inv g' → (∀ l ∈ s', l.Perm digits) →
      (f g' s' n').ok = true → Inv (f g' s' n').grid)
    (hrest : ∀ g' s' n', (f g' s' n').ok = false → (f g' s' n').grid = g')
    (hsufx : ∀ g' s' n', (f g' s' n').supply <:+ s') :
    ∀ ds : List Int, (∀ d ∈ ds, d ∈ digits) →
      ∀ sup : List (List Int), (∀ l ∈ sup, l.Perm digits) → ∀ nodes : Nat, Inv g →
      (statsLoop f r c ds g sup nodes).ok = true →
      Inv (statsLoop f r c ds g sup nodes).grid := by
  intro ds
  induction ds with
  | nil =>
    intro _ sup _ nodes _ hok
    simp [statsLoop] at hok
  | cons d ds ih =>
    intro hds sup hsup nodes hinv hok
    simp only [statsLoop] at hok ⊢
    by_cases hv : is_valid_move g r c d = true
    · rw [if_pos hv] at hok ⊢
      by_cases hok2 : (f (setCell g r c d) sup (nodes + 1)).ok = true
      · rw [if_pos hok2] at hok ⊢
        obtain ⟨hd1, hd9⟩ := digits_bounds d (hds d (List.mem_cons_self _ _))
        exact hf _ _ _ (Inv_place hinv hr hc h0 hd1 hd9 hv) hsup hok2
      · rw [if_neg hok2] at hok ⊢
        have hok2f : (f (setCell g r c d) sup (nodes + 1)).ok = false := Bool.not_eq_true _ ▸ hok2
        rw [hrest _ _ _ hok2f, setCell_zero_cancel h0] at hok ⊢
        refine ih (fun d' hd' => hds d' (List.mem_cons_of_mem _ hd')) _ ?_ _ hinv hok
        intro l hl
        exact hsup l ((hsufx (setCell g r c d) sup (nodes + 1)).subset hl)
    · rw [if_neg hv] at hok ⊢
      exact ih (fun d' hd' => hds d' (List.mem_cons_of_mem _ hd')) _ hsup _ hinv hok

theorem solveStatsF_sound :
    ∀ (fuel : Nat) (g : Grid) (sup : List (List Int)) (nodes : Nat),
      Inv g → (∀ l ∈ sup, l.Perm digits) →
      (solveStatsF fuel g sup nodes).ok = true → Inv (solveStatsF fuel g sup nodes).grid := by
  intro fuel
  induction fuel with
  | zero => intro g sup nodes _ _ hok; cases hok
  | succ fuel ih =>
    intro g sup nodes hinv hsup hok
    cases hfe : find_empty g with
    | none =>
      have hred : solveStatsF (fuel + 1) g sup nodes = ⟨true, g, sup, nodes⟩ := by
        simp [solveStatsF, hfe]
      rw [hred]
      exact hinv
    | some p =>
      rcases p with ⟨r, c⟩
      have hred : solveStatsF (fuel + 1) g sup nodes =
          statsLoop (solveStatsF fuel) r c (sup.headD digits) g sup.tail nodes := by
        simp [solveStatsF, hfe]
      rw [hred] at hok ⊢
      obtain ⟨hr, hc, h0⟩ := find_empty_some hfe
      have hds : ∀ d ∈ sup.headD digits, d ∈ digits := by
        cases sup with
        | nil => intro d hd; exact hd
        | cons l ls =>
          intro d hd
          exact (hsup l (List.mem_cons_self _ _)).mem_iff.1 hd
      exact statsLoop_sound hr hc h0 (fun g' s' n' => ih g' s' n')
        (fun g' s' n' => (solveStatsF_spec fuel g' s' n').1)
        (fun g' s' n' => solveStatsF_supply_suffix fuel g' s' n')
        _ hds sup.tail (fun l hl => hsup l (List.mem_of_mem_tail hl)) nodes hinv hok

theorem solveLoop_sound {f : Grid → Nat → SolveRes} {r c : Nat} {g : Grid}
    (hr : r < 9) (hc : c < 9) (h0 : getCell g r c = 0)
    (hf : ∀ g' a', Inv g' → (f g' a').ok = true → Inv (f g' a').grid)
    (hrest : ∀ g' a', (f g' a').ok = false → (f g' a').grid = g') :
    ∀ ds : List Int, (∀ d ∈ ds, d ∈ digits) → ∀ att : Nat, Inv g →
      (solveLoop f r c ds g att).ok = true → Inv (solveLoop f r c ds g att).grid := by
  intro ds
  induction ds with
  | nil =>
    intro _ att _ hok
    simp [solveLoop] at hok
  | cons d ds ih =>
    intro hds att hinv hok
    simp only [solveLoop] at hok ⊢
    by_cases hv : is_valid_move g r c d = true
    · rw [if_pos hv] at hok ⊢
      by_cases hok2 : (f (setCell g r c d) (att + 1)).ok = true
      · rw [if_pos hok2] at hok ⊢
        obtain ⟨hd1, hd9⟩ := digits_bounds d (hds d (List.mem_cons_self _ _))
        exact hf _ _ (Inv_place hinv hr hc h0 hd1 hd9 hv) hok2
      · rw [if_neg hok2] at hok ⊢
        have hok2f : (f (setCell g r c d) (att + 1)).ok = false := Bool.not_eq_true _ ▸ hok2
        rw [hrest _ _ hok2f, setCell_zero_cancel h0] at hok ⊢
        exact ih (fun d' hd' => hds d' (List.mem_cons_of_mem _ hd')) _ hinv hok
    · rw [if_neg hv] at hok ⊢
      exact ih (fun d' hd' => hds d' (List.mem_cons_of_mem _ hd')) _ hinv hok

theorem solveF_sound :
    ∀ (fuel : Nat) (g : Grid) (att : Nat), Inv g →
      (solveF fuel g att).ok = true → Inv (solveF fuel g att).grid := by
  intro fuel
  induction fuel with
  | zero => intro g att _ hok; cases hok
  | succ fuel ih =>
    intro g att hinv hok
    cases hfe : find_empty g with
    | none =>
      have hred : solveF (fuel + 1) g att = ⟨true, g, att⟩ := by
        simp [solveF, hfe]
      rw [hred]
      exact hinv
    | some p =>
      rcases p with ⟨r, c⟩
      have hred : solveF (fuel + 1) g att = solveLoop (solveF fuel) r c digits g att := by
        simp [solveF, hfe]
      rw [hred] at hok ⊢
      obtain ⟨hr, hc, h0⟩ := find_empty_some hfe
      exact solveLoop_sound hr hc h0 (fun g' a' => ih g' a')
        (fun g' a' => (solveF_spec fuel g' a').1) _ (fun d hd => hd) att hinv hok

/-!  Completeness: if a solution extending the grid exists, the search
succeeds (whatever candidate orders the randomness supplies).  -/

theorem mem_digits_of_bounds {d : Int} (h1 : 1 ≤ d) (h9 : d ≤ 9) : d ∈ digits := by
  unfold digits
  simp only [List.mem_cons, List.not_mem_nil, or_false]
  omega

theorem valid_of_solution {S g : Grid} (hwf : GridWF g) (hsol : Solution S g) {r c : Nat}
    (hr : r < 9) (hc : c < 9) (h0 : getCell g r c = 0) :
    is_valid_move g r c (getCell S r c) = true := by
  obtain ⟨hSwf, hScomp, hS19, hScons, hSext⟩ := hsol
  rw [is_valid_move_iff hwf hr hc]
  intro r₂ hr₂ c₂ hc₂ hsg heq
  have hd1 : 1 ≤ getCell S r c := (hS19 r hr c hc).1
  have hne0 : getCell g r₂ c₂ ≠ 0 := by rw [heq]; omega
  have hSval : getCell S r₂ c₂ = getCell g r₂ c₂ := hSext r₂ hr₂ c₂ hc₂ hne0
  have hnepos : (r, c) ≠ (r₂, c₂) := by
    intro hp
    obtain ⟨e1, e2⟩ := Prod.mk.injEq .. ▸ hp
    rw [← e1, ← e2] at hne0
    exact hne0 h0
  exact hScons r hr c hc r₂ hr₂ c₂ hc₂ hsg hnepos (by omega) (by rw [hSval, heq])

theorem Extends_place_solution {S g : Grid} (hext : Extends g S) {r c : Nat}
    (h0 : getCell g r c = 0) :
    Extends (setCell g r c (getCell S r c)) S := by
  intro r' hr' c' hc' hne
  rcases eq_or_ne (r', c') (r, c) with he | he
  · obtain ⟨e1, e2⟩ := Prod.mk.injEq .. ▸ he
    subst e1; subst e2
    rcases getCell_setCell_cases g r' c' r' c' (getCell S r' c') with hv | hv
    · rw [hv]
    · rw [hv] at hne
      exact absurd h0 hne
  · rw [getCell_setCell_ne he] at hne ⊢
    exact hext r' hr' c' hc' hne

theorem statsLoop_complete {f : Grid → List (List Int) → Nat → StatsRes} {r c : Nat} {g : Grid}
    (h0 : getCell g r c = 0) {d₀ : Int}
    (hval : is_valid_move g r c d₀ = true)
    (hsub : ∀ s' n', (∀ l ∈ s', l.Perm digits) → (f (setCell g r c d₀) s' n').ok = true)
    (hrest : ∀ g' s' n', (f g' s' n').ok = false → (f g' s' n').grid = g')
    (hsufx : ∀ g' s' n', (f g' s' n').supply <:+ s') :
    ∀ ds : List Int, d₀ ∈ ds → ∀ sup, (∀ l ∈ sup, l.Perm digits) → ∀ nodes,
      (statsLoop f r c ds g sup nodes).ok = true := by
  intro ds
  induction ds with
  | nil => intro h; exact absurd h (List.not_mem_nil d₀)
  | cons d ds ih =>
    intro hmem sup hsup nodes
    simp only [statsLoop]
    by_cases hv : is_valid_move g r c d = true
    · rw [if_pos hv]
      by_cases hok2 : (f (setCell g r c d) sup (nodes + 1)).ok = true
      · rw [if_pos hok2]
        exact hok2
      · rw [if_neg hok2]
        have hok2f : (f (setCell g r c d) sup (nodes + 1)).ok = false :=
          Bool.not_eq_true _ ▸ hok2
        have hdne : d ≠ d₀ := by
          intro he
          subst he
          exact hok2 (hsub sup (nodes + 1) hsup)
        have hmem' : d₀ ∈ ds := by
          rcases List.mem_cons.1 hmem with he | hm
          · exact absurd he.symm hdne
          · exact hm
        rw [hrest _ _ _ hok2f, setCell_zero_cancel h0]
        exact ih hmem' _ (fun l hl => hsup l ((hsufx _ _ _).subset hl)) _
    · rw [if_neg hv]
      have hdne : d ≠ d₀ := fun he => hv (he ▸ hval)
      have hmem' : d₀ ∈ ds := by
        rcases List.mem_cons.1 hmem with he | hm
        · exact absurd he.symm hdne
        · exact hm
      exact ih hmem' _ hsup _

theorem solveStatsF_complete :
    ∀ (fuel : Nat) (g : Grid) (sup : List (List Int)) (nodes : Nat) (S : Grid),
      GridWF g → Solution S g → numEmpty g < fuel → (∀ l ∈ sup, l.Perm digits) →
      (solveStatsF fuel g sup nodes).ok = true := by
  intro fuel
  induction fuel with
  | zero => intro g sup nodes S _ _ hlt _; omega
  | succ fuel ih =>
    intro g sup nodes S hwf hsol hlt hsup
    cases hfe : find_empty g with
    | none => simp [solveStatsF, hfe]
    | some p =>
      rcases p with ⟨r, c⟩
      have hred : solveStatsF (fuel + 1) g sup nodes =
          statsLoop (solveStatsF fuel) r c (sup.headD digits) g sup.tail nodes := by
        simp [solveStatsF, hfe]
      rw [hred]
      obtain ⟨hr, hc, h0⟩ := find_empty_some hfe
      have hb := hsol.2.2.1 r hr c hc
      have hdig : getCell S r c ∈ digits := mem_digits_of_bounds hb.1 hb.2
      have hval := valid_of_solution hwf hsol hr hc h0
      have hsub : ∀ s' n', (∀ l ∈ s', l.Perm digits) →
          (solveStatsF fuel (setCell g r c (getCell S r c)) s' n').ok = true := by
        intro s' n' hs'
        have hne := numEmpty_setCell hwf hr hc h0 (by omega : getCell S r c ≠ 0)
        exact ih (setCell g r c (getCell S r c)) s' n' S (GridWF_setCell hwf r c _)
          ⟨hsol.1, hsol.2.1, hsol.2.2.1, hsol.2.2.2.1,
            Extends_place_solution hsol.2.2.2.2 h0⟩ (by omega) hs'
      have hmem : getCell S r c ∈ sup.headD digits := by
        cases sup with
        | nil => exact hdig
        | cons l ls => exact (hsup l (List.mem_cons_self _ _)).mem_iff.2 hdig
      exact statsLoop_complete h0 hval hsub
        (fun g' s' n' => (solveStatsF_spec fuel g' s' n').1)
        (fun g' s' n' => solveStatsF_supply_suffix fuel g' s' n')
        _ hmem sup.tail (fun l hl => hsup l (List.mem_of_mem_tail hl)) nodes

theorem solveLoop_complete {f : Grid → Nat → SolveRes} {r c : Nat} {g : Grid}
    (h0 : getCell g r c = 0) {d₀ : Int}
    (hval : is_valid_move g r c d₀ = true)
    (hsub : ∀ a', (f (setCell g r c d₀) a').ok = true)
    (hrest : ∀ g' a', (f g' a').ok = false → (f g' a').grid = g') :
    ∀ ds : List Int, d₀ ∈ ds → ∀ att, (solveLoop f r c ds g att).ok = true := by
  intro ds
  induction ds with
  | nil => intro h; exact absurd h (List.not_mem_nil d₀)
  | cons d ds ih =>
    intro hmem att
    simp only [solveLoop]
    by_cases hv : is_valid_move g r c d = true
    · rw [if_pos hv]
      by_cases hok2 : (f (setCell g r c d) (att + 1)).ok = true
      · rw [if_pos hok2]
        exact hok2
      · rw [if_neg hok2]
        have hok2f : (f (setCell g r c d) (att + 1)).ok = false := Bool.not_eq_true _ ▸ hok2
        have hdne : d ≠ d₀ := by
          intro he
          subst he
          exact hok2 (hsub (att + 1))
        have hmem' : d₀ ∈ ds := by
          rcases List.mem_cons.1 hmem with he | hm
          · exact absurd he.symm hdne
          · exact hm
        rw [hrest _ _ hok2f, setCell_zero_cancel h0]
        exact ih hmem' _
    · rw [if_neg hv]
      have hdne : d ≠ d₀ := fun he => hv (he ▸ hval)
      have hmem' : d₀ ∈ ds := by
        rcases List.mem_cons.1 hmem with he | hm
        · exact absurd he.symm hdne
        · exact hm
      exact ih hmem' _

theorem solveF_complete :
    ∀ (fuel : Nat) (g : Grid) (att : Nat) (S : Grid),
      GridWF g → Solution S g → numEmpty g < fuel →
      (solveF fuel g att).ok = true := by
  intro fuel
  induction fuel with
  | zero => intro g att S _ _ hlt; omega
  | succ fuel ih =>
    intro g att S hwf hsol hlt
    cases hfe : find_empty g with
    | none => simp [solveF, hfe]
    | some p =>
      rcases p with ⟨r, c⟩
      have hred : solveF (fuel + 1) g att = solveLoop (solveF fuel) r c digits g att := by
        simp [solveF, hfe]
      rw [hred]
      obtain ⟨hr, hc, h0⟩ := find_empty_some hfe
      have hb := hsol.2.2.1 r hr c hc
      have hdig : getCell S r c ∈ digits := mem_digits_of_bounds hb.1 hb.2
      have hval := valid_of_solution hwf hsol hr hc h0
      have hsub : ∀ a', (solveF fuel (setCell g r c (getCell S r c)) a').ok = true := by
        intro a'
        have hne := numEmpty_setCell hwf hr hc h0 (by omega : getCell S r c ≠ 0)
        exact ih (setCell g r c (getCell S r c)) a' S (GridWF_setCell hwf r c _)
          ⟨hsol.1, hsol.2.1, hsol.2.2.1, hsol.2.2.2.1,
            Extends_place_solution hsol.2.2.2.2 h0⟩ (by omega)
      exact solveLoop_complete h0 hval hsub
        (fun g' a' => (solveF_spec fuel g' a').1) _ hdig att

/-!  The Full-Grid Generator always yields a complete valid grid (C7).  -/

theorem zeroGrid_inv : Inv zeroGrid := by decide

theorem base9_solution_zeroGrid : Solution base9 zeroGrid := by decide

theorem numEmpty_zeroGrid : numEmpty zeroGrid = 81 := by decide

theorem generate_full_grid_spec (sup : List (List Int)) (hsup : ∀ l ∈ sup, l.Perm digits) :
    (solve_sudoku_with_stats zeroGrid sup).ok = true ∧
    Inv (generate_full_grid sup) ∧ Complete (generate_full_grid sup) := by
  have hok : (solveStatsF 82 zeroGrid sup 0).ok = true :=
    solveStatsF_complete 82 zeroGrid sup 0 base9 zeroGrid_inv.1 base9_solution_zeroGrid
      (by rw [numEmpty_zeroGrid]; omega) hsup
  refine ⟨hok, ?_, ?_⟩
  · exact solveStatsF_sound 82 zeroGrid sup 0 zeroGrid_inv hsup hok
  · exact find_empty_none_iff.1 ((solveStatsF_spec 82 zeroGrid sup 0).2 hok).1

/-- C7: whatever permutations the randomness source supplies as candidate
orders, `generate_full_grid` succeeds (the underlying search reports true on
the empty grid) and returns a grid that is complete (no cell is 0) and valid
(no two equal digits share a row, column, or 3x3 box). -/
theorem generate_full_grid_complete_valid (sup : List (List Int))
    (hsup : ∀ l ∈ sup, l.Perm digits) :
    (solve_sudoku_with_stats zeroGrid sup).ok = true ∧
    Complete (generate_full_grid sup) ∧ Consistent (generate_full_grid sup) := by
  obtain ⟨hok, hinv, hcomp⟩ := generate_full_grid_spec sup hsup
  exact ⟨hok, hcomp, hinv.2.2⟩

theorem generate_full_grid_complete_valid_witness :
    (solve_sudoku_with_stats zeroGrid []).ok = true ∧
    Complete (generate_full_grid []) ∧ Consistent (generate_full_grid []) :=
  generate_full_grid_complete_valid [] (fun l hl => absurd hl (List.not_mem_nil l))

/-!  The Puzzle Reducer (C1, C8).  -/

theorem complete_count_one {p : Grid} (h : Complete p) : count_solutions p 2 = (1, p) := by
  have hfe : find_empty p = none := find_empty_none_iff.2 h
  simp [count_solutions, countSolsF, hfe]

theorem reduceLoop_count_one {clues : Nat} :
    ∀ (cells : List (Nat × Nat)) (p : Grid) (removed : Nat),
      (count_solutions p 2).1 = 1 →
      (count_solutions (reduceLoop clues cells p removed) 2).1 = 1 := by
  intro cells
  induction cells with
  | nil => intro p removed h; exact h
  | cons pc rest ih =>
    rcases pc with ⟨r, c⟩
    intro p removed h
    simp only [reduceLoop]
    split
    · exact h
    · split
      · rename_i hcount
        exact ih _ _ hcount
      · rw [setCell_setCell, setCell_getCell_self]
        exact ih _ _ h

/-- C1: for every outcome of the randomness source (the full grid generated
from any permutation supply — always complete and valid — and any shuffled
cell order) and every difficulty target, the puzzle `generate_puzzle_base`
returns still has a unique completion: the counting search with limit 2
reports exactly 1. -/
theorem generate_puzzle_base_unique (d : Difficulty) (sup : List (List Int))
    (cells : List (Nat × Nat)) (hsup : ∀ l ∈ sup, l.Perm digits) :
    (count_solutions (generate_puzzle_base d sup cells) 2).1 = 1 := by
  have hcomp := (generate_full_grid_spec sup hsup).2.2
  unfold generate_puzzle_base reduce_to_puzzle
  apply reduceLoop_count_one
  rw [complete_count_one hcomp]

theorem generate_puzzle_base_unique_witness :
    (count_solutions (generate_puzzle_base .easy [] []) 2).1 = 1 :=
  generate_puzzle_base_unique .easy [] [] (fun l hl => absurd hl (List.not_mem_nil l))

theorem ClueSub_trans {p q s : Grid} (h1 : ClueSub p q) (h2 : ClueSub q s) : ClueSub p s := by
  intro r hr c hc
  rcases h1 r hr c hc with h | h
  · exact Or.inl h
  · rcases h2 r hr c hc with h' | h'
    · exact Or.inl (h ▸ h')
    · exact Or.inr (h ▸ h')

theorem ClueSub_setZero (p : Grid) (r c : Nat) : ClueSub (setCell p r c 0) p := by
  intro r' hr' c' hc'
  rcases getCell_setCell_cases p r c r' c' 0 with hv | hv
  · exact Or.inl hv
  · exact Or.inr hv

theorem reduceLoop_sub {clues : Nat} :
    ∀ (cells : List (Nat × Nat)) (p : Grid) (removed : Nat),
      ClueSub (reduceLoop clues cells p removed) p := by
  intro cells
  induction cells with
  | nil => intro p removed r hr c hc; exact Or.inr rfl
  | cons pc rest ih =>
    rcases pc with ⟨r, c⟩
    intro p removed
    simp only [reduceLoop]
    split
    · intro r' hr' c' hc'; exact Or.inr rfl
    · split
      · exact ClueSub_trans (ih _ _) (ClueSub_setZero p r c)
      · rw [setCell_setCell, setCell_getCell_self]
        exact ih _ _

theorem reduceLoop_wf {clues : Nat} :
    ∀ (cells : List (Nat × Nat)) (p : Grid) (removed : Nat),
      GridWF p → GridWF (reduceLoop clues cells p removed) := by
  intro cells
  induction cells with
  | nil => intro p removed h; exact h
  | cons pc rest ih =>
    rcases pc with ⟨r, c⟩
    intro p removed h
    simp only [reduceLoop]
    split
    · exact h
    · split
      · exact ih _ _ (GridWF_setCell h r c 0)
      · rw [setCell_setCell, setCell_getCell_self]
        exact ih _ _ h

theorem Extends_of_ClueSub {p full : Grid} (h : ClueSub p full) : Extends p full := by
  intro r hr c hc hne
  rcases h r hr c hc with h' | h'
  · exact absurd h' hne
  · exact h'.symm

theorem Consistent_of_ClueSub {p full : Grid} (h : ClueSub p full)
    (hcons : Consistent full) : Consistent p := by
  intro r₁ hr₁ c₁ hc₁ r₂ hr₂ c₂ hc₂ hsg hne h₁ heq
  rcases h r₁ hr₁ c₁ hc₁ with hv₁ | hv₁
  · exact h₁ hv₁
  · rcases h r₂ hr₂ c₂ hc₂ with hv₂ | hv₂
    · rw [heq] at h₁
      exact h₁ hv₂
    · rw [hv₁] at h₁ heq
      rw [hv₂] at heq
      exact hcons r₁ hr₁ c₁ hc₁ r₂ hr₂ c₂ hc₂ hsg hne h₁ heq

theorem Cells09_of_ClueSub {p full : Grid} (h : ClueSub p full) (h09 : Cells09 full) :
    Cells09 p := by
  intro r hr c hc
  rcases h r hr c hc with hv | hv
  · rw [hv]; omega
  · rw [hv]
    exact h09 r hr c hc

theorem Cells19_of_complete {g : Grid} (hcomp : Complete g) (h09 : Cells09 g) : Cells19 g := by
  intro r hr c hc
  have h1 := h09 r hr c hc
  have h2 := hcomp r hr c hc
  omega

theorem grid_ext {g₁ g₂ : Grid} (h1 : GridWF g₁) (h2 : GridWF g₂)
    (h : ∀ r < 9, ∀ c < 9, getCell g₁ r c = getCell g₂ r c) : g₁ = g₂ := by
  apply List.ext_getElem (by rw [h1.1, h2.1])
  intro r hr1 hr2
  have hr9 : r < 9 := by rwa [h1.1] at hr1
  have e1 : g₁[r] = g₁.getD r [] := (List.getD_eq_getElem g₁ [] hr1).symm
  have e2 : g₂[r] = g₂.getD r [] := (List.getD_eq_getElem g₂ [] hr2).symm
  apply List.ext_getElem
  · rw [e1, e2, h1.2 r hr9, h2.2 r hr9]
  · intro c hc1 hc2
    have hc9 : c < 9 := by
      rw [e1, h1.2 r hr9] at hc1
      exact hc1
    have v1 : getCell g₁ r c = g₁[r][c] := by
      unfold getCell
      rw [← e1, List.getD_eq_getElem (g₁[r]) 0 hc1]
    have v2 : getCell g₂ r c = g₂[r][c] := by
      unfold getCell
      rw [← e2, List.getD_eq_getElem (g₂[r]) 0 hc2]
    rw [← v1, ← v2]
    exact h r hr9 c hc9

theorem Solution_complete_eq {S g : Grid} (hwf : GridWF g) (hcomp : Complete g)
    (hsol : Solution S g) : S = g :=
  grid_ext hsol.1 hwf (fun r hr c hc => hsol.2.2.2.2 r hr c hc (hcomp r hr c hc))

/-- C8: whenever the puzzle the Puzzle Reducer builds from a valid full grid
has that full grid as its unique solution, the first-solution solver succeeds
on the puzzle and its final grid is exactly the original full grid. -/
theorem solve_reduced_roundtrip (full : Grid) (cells : List (Nat × Nat)) (d : Difficulty)
    (hwf : GridWF full) (hcomp : Complete full) (h19 : Cells19 full) (hcons : Consistent full)
    (huniq : ∀ S, Solution S (reduce_to_puzzle full cells (DIFFICULTY_CLUES d)) → S = full) :
    (solve_sudoku (reduce_to_puzzle full cells (DIFFICULTY_CLUES d))).ok = true ∧
    (solve_sudoku (reduce_to_puzzle full cells (DIFFICULTY_CLUES d))).grid = full := by
  have hsub : ClueSub (reduce_to_puzzle full cells (DIFFICULTY_CLUES d)) full :=
    reduceLoop_sub cells full 0
  have hwfp : GridWF (reduce_to_puzzle full cells (DIFFICULTY_CLUES d)) :=
    reduceLoop_wf cells full 0 hwf
  have h09 : Cells09 full := by
    intro r hr c hc
    have := h19 r hr c hc
    omega
  have hinvp : Inv (reduce_to_puzzle full cells (DIFFICULTY_CLUES d)) :=
    ⟨hwfp, Cells09_of_ClueSub hsub h09, Consistent_of_ClueSub hsub hcons⟩
  have hsolfull : Solution full (reduce_to_puzzle full cells (DIFFICULTY_CLUES d)) :=
    ⟨hwf, hcomp, h19, hcons, Extends_of_ClueSub hsub⟩
  have hok : (solve_sudoku (reduce_to_puzzle full cells (DIFFICULTY_CLUES d))).ok = true :=
    solveF_complete 82 _ 0 full hwfp hsolfull
      (lt_of_le_of_lt (numEmpty_le _) (by omega))
  refine ⟨hok, ?_⟩
  have hinvres := solveF_sound 82 _ 0 hinvp hok
  have hspec := (solveF_spec 82 (reduce_to_puzzle full cells (DIFFICULTY_CLUES d)) 0).2 hok
  apply huniq
  exact ⟨hinvres.1, find_empty_none_iff.1 hspec.1,
    Cells19_of_complete (find_empty_none_iff.1 hspec.1) hinvres.2.1, hinvres.2.2, hspec.2⟩

theorem solve_reduced_roundtrip_witness :
    (solve_sudoku (reduce_to_puzzle base9 [] (DIFFICULTY_CLUES .easy))).ok = true ∧
    (solve_sudoku (reduce_to_puzzle base9 [] (DIFFICULTY_CLUES .easy))).grid = base9 :=
  solve_reduced_roundtrip base9 [] .easy (by decide) (by decide) (by decide) (by decide)
    (fun S hS => Solution_complete_eq (by decide) (by decide) hS)

/-!  Removing a single cell of a complete valid grid keeps the solution
unique (the row still holds the other eight digits), and a measurement run on
a solvable puzzle with at least one hole counts at least one node (C5).  -/

theorem row_surjective {full : Grid} (hcons : Consistent full) (h19 : Cells19 full)
    {r : Nat} (hr : r < 9) {d' : Int} (h1 : 1 ≤ d') (h9 : d' ≤ 9) :
    ∃ c' < 9, getCell full r c' = d' := by
  classical
  have hinj : Function.Injective (fun i : Fin 9 => getCell full r i) := by
    intro i j hij
    by_contra hne
    have hji : (i : Nat) ≠ (j : Nat) := fun h => hne (Fin.ext h)
    have hnz : getCell full r i ≠ 0 := by
      have := h19 r hr i i.isLt
      omega
    exact hcons r hr i i.isLt r hr j j.isLt (Or.inl rfl)
      (fun hp => by
        obtain ⟨e1, e2⟩ := Prod.mk.injEq .. ▸ hp
        exact hji e2) hnz hij
  have hsub : Finset.image (fun i : Fin 9 => getCell full r i) Finset.univ ⊆
      Finset.Icc (1 : Int) 9 := by
    intro x hx
    obtain ⟨i, _, hi⟩ := Finset.mem_image.1 hx
    rw [Finset.mem_Icc, ← hi]
    exact h19 r hr i i.isLt
  have hcard : (Finset.image (fun i : Fin 9 => getCell full r i) Finset.univ).card = 9 := by
    rw [Finset.card_image_of_injective _ hinj, Finset.card_univ, Fintype.card_fin]
  have hcard2 : (Finset.Icc (1 : Int) 9).card = 9 := by
    rw [Int.card_Icc]
    rfl
  have heq : Finset.image (fun i : Fin 9 => getCell full r i) Finset.univ =
      Finset.Icc (1 : Int) 9 :=
    Finset.eq_of_subset_of_card_le hsub (by omega)
  have hd : d' ∈ Finset.Icc (1 : Int) 9 := Finset.mem_Icc.2 ⟨h1, h9⟩
  rw [← heq] at hd
  obtain ⟨i, _, hi⟩ := Finset.mem_image.1 hd
  exact ⟨i, i.isLt, hi⟩

theorem countLoop_all_invalid {f : Grid → Nat × Grid} {limit r c : Nat} :
    ∀ (ds : List Int) (g : Grid) (count : Nat),
      (∀ d ∈ ds, is_valid_move g r c d = false) →
      countLoop f limit r c ds count g = (count, g) := by
  intro ds
  induction ds with
  | nil => intro g count _; rfl
  | cons d ds ih =>
    intro g count h
    simp only [countLoop]
    rw [if_neg (by rw [h d (List.mem_cons_self _ _)]; exact Bool.false_ne_true)]
    exact ih g count (fun d' hd' => h d' (List.mem_cons_of_mem _ hd'))

theorem countLoop_single {f : Grid → Nat × Grid} {r c : Nat} {g gfull : Grid} {b : Int}
    (hval : is_valid_move g r c b = true)
    (hres : f (setCell g r c b) = (1, gfull))
    (hundo : setCell gfull r c 0 = g) :
    ∀ ds : List Int, ds.Nodup → b ∈ ds →
      (∀ d ∈ ds, d ≠ b → is_valid_move g r c d = false) →
      countLoop f 2 r c ds 0 g = (1, g) := by
  intro ds
  induction ds with
  | nil => intro _ h; exact absurd h (List.not_mem_nil b)
  | cons d ds ih =>
    intro hnd hmem hinv
    simp only [countLoop]
    rcases eq_or_ne d b with rfl | hne
    · rw [if_pos hval, hres]
      simp only []
      rw [if_neg (by omega), hundo]
      apply countLoop_all_invalid
      intro d' hd'
      have hne' : d' ≠ d := by
        intro he
        exact (List.nodup_cons.1 hnd).1 (he ▸ hd')
      exact hinv d' (List.mem_cons_of_mem _ hd') hne'
    · rw [if_neg (by rw [hinv d (List.mem_cons_self _ _) hne]; exact Bool.false_ne_true)]
      have hmem' : b ∈ ds := by
        rcases List.mem_cons.1 hmem with he | hm
        · exact absurd he.symm hne
        · exact hm
      exact ih (List.nodup_cons.1 hnd).2 hmem' (fun d' hd' => hinv d' (List.mem_cons_of_mem _ hd'))

theorem countSolsF_complete_grid {fuel : Nat} (hf : 0 < fuel) {g : Grid} (h : Complete g)
    (limit : Nat) : countSolsF fuel g limit = (1, g) := by
  cases fuel with
  | zero => omega
  | succ fuel =>
    have hfe : find_empty g = none := find_empty_none_iff.2 h
    simp [countSolsF, hfe]

theorem digits_nodup : digits.Nodup := by decide

theorem countSolsF_succ_some {fuel : Nat} {g : Grid} {r c : Nat} {limit : Nat}
    (hfe : find_empty g = some (r, c)) :
    countSolsF (fuel + 1) g limit =
      countLoop (fun g' => countSolsF fuel g' limit) limit r c digits 0 g := by
  simp [countSolsF, hfe]

theorem count_one_hole {full : Grid} (hinv : Inv full) (hcomp : Complete full)
    {r c : Nat} (hr : r < 9) (hc : c < 9) :
    (count_solutions (setCell full r c 0) 2).1 = 1 := by
  obtain ⟨hwf, h09, hcons⟩ := hinv
  have h19 : Cells19 full := Cells19_of_complete hcomp h09
  have hwfp : GridWF (setCell full r c 0) := GridWF_setCell hwf r c 0
  have h0 : getCell (setCell full r c 0) r c = 0 := getCell_setCell_self hwf hr hc 0
  have hback : 1 ≤ getCell full r c ∧ getCell full r c ≤ 9 := h19 r hr c hc
  have hother : ∀ r' c', (r', c') ≠ (r, c) →
      getCell (setCell full r c 0) r' c' = getCell full r' c' :=
    fun r' c' hne => getCell_setCell_ne hne 0
  have hfe : find_empty (setCell full r c 0) = some (r, c) := by
    have hs := find_empty_isSome hr hc h0
    cases hq : find_empty (setCell full r c 0) with
    | none => rw [hq] at hs; cases hs
    | some q =>
      rcases q with ⟨x, y⟩
      obtain ⟨hx, hy, hxy0⟩ := find_empty_some hq
      rcases eq_or_ne ((x : Nat), (y : Nat)) (r, c) with he | he
      · obtain ⟨e1, e2⟩ := Prod.mk.injEq .. ▸ he
        rw [e1, e2]
      · rw [hother x y he] at hxy0
        exact absurd hxy0 (hcomp x hx y hy)
  have hred : count_solutions (setCell full r c 0) 2 =
      countLoop (fun g' => countSolsF 81 g' 2) 2 r c digits 0 (setCell full r c 0) :=
    countSolsF_succ_some hfe
  rw [hred]
  have hrestore : setCell (setCell full r c 0) r c (getCell full r c) = full := by
    rw [setCell_setCell, setCell_getCell_self]
  have hval : is_valid_move (setCell full r c 0) r c (getCell full r c) = true := by
    rw [is_valid_move_iff hwfp hr hc]
    intro r₂ hr₂ c₂ hc₂ hsg heq
    rcases eq_or_ne ((r₂ : Nat), (c₂ : Nat)) (r, c) with he | he
    · obtain ⟨e1, e2⟩ := Prod.mk.injEq .. ▸ he
      rw [e1, e2, h0] at heq
      omega
    · rw [hother r₂ c₂ he] at heq
      have hnep : (r, c) ≠ (r₂, c₂) := fun hp => he hp.symm
      exact hcons r hr c hc r₂ hr₂ c₂ hc₂ hsg hnep (by omega) heq.symm
  have hinvother : ∀ d ∈ digits, d ≠ getCell full r c →
      is_valid_move (setCell full r c 0) r c d = false := by
    intro d hd hne
    obtain ⟨hd1, hd9⟩ := digits_bounds d hd
    obtain ⟨c', hc', hval'⟩ := row_surjective hcons h19 hr hd1 hd9
    have hc'ne : c' ≠ c := by
      intro he
      rw [he] at hval'
      exact hne hval'.symm
    have hcell : getCell (setCell full r c 0) r c' = d := by
      rw [hother r c' (by simp [hc'ne])]
      exact hval'
    cases hx : is_valid_move (setCell full r c 0) r c d with
    | false => rfl
    | true =>
      have := (is_valid_move_iff hwfp hr hc d).1 hx r hr c' hc' (Or.inl rfl)
      exact absurd hcell this
  have hfull : countSolsF 81 (setCell (setCell full r c 0) r c (getCell full r c)) 2 =
      (1, full) := by
    rw [hrestore]
    exact countSolsF_complete_grid (by omega) hcomp 2
  rw [countLoop_single hval hfull rfl digits digits_nodup
    (mem_digits_of_bounds hback.1 hback.2) hinvother]

theorem reduceLoop_zero_mono {clues : Nat} :
    ∀ (cells : List (Nat × Nat)) (p : Grid) (removed r c : Nat), getCell p r c = 0 →
      getCell (reduceLoop clues cells p removed) r c = 0 := by
  intro cells
  induction cells with
  | nil => intro p removed r c h; exact h
  | cons pc rest ih =>
    rcases pc with ⟨x, y⟩
    intro p removed r c h
    simp only [reduceLoop]
    split
    · exact h
    · split
      · apply ih
        rcases getCell_setCell_cases p x y r c 0 with hv | hv
        · exact hv
        · rw [hv]; exact h
      · rw [setCell_setCell, setCell_getCell_self]
        exact ih _ _ _ _ h

theorem statsLoop_nodes_mono {f : Grid → List (List Int) → Nat → StatsRes} {r c : Nat}
    (hm : ∀ g' s' n', n' ≤ (f g' s' n').nodes) :
    ∀ (ds : List Int) (g : Grid) (sup : List (List Int)) (nodes : Nat),
      nodes ≤ (statsLoop f r c ds g sup nodes).nodes := by
  intro ds
  induction ds with
  | nil => intro g sup nodes; exact le_refl _
  | cons d ds ih =>
    intro g sup nodes
    simp only [statsLoop]
    split
    · by_cases hok : (f (setCell g r c d) sup (nodes + 1)).ok = true
      · rw [if_pos hok]
        have := hm (setCell g r c d) sup (nodes + 1)
        omega
      · rw [if_neg hok]
        have h1 := hm (setCell g r c d) sup (nodes + 1)
        have h2 := ih (setCell (f (setCell g r c d) sup (nodes + 1)).grid r c 0)
          (f (setCell g r c d) sup (nodes + 1)).supply
          (f (setCell g r c d) sup (nodes + 1)).nodes
        omega
    · exact ih g sup nodes

theorem solveStatsF_nodes_mono :
    ∀ (fuel : Nat) (g : Grid) (sup : List (List Int)) (nodes : Nat),
      nodes ≤ (solveStatsF fuel g sup nodes).nodes := by
  intro fuel
  induction fuel with
  | zero => intro g sup nodes; exact le_refl _
  | succ fuel ih =>
    intro g sup nodes
    cases hfe : find_empty g with
    | none =>
      have hred : solveStatsF (fuel + 1) g sup nodes = ⟨true, g, sup, nodes⟩ := by
        simp [solveStatsF, hfe]
      rw [hred]
    | some p =>
      rcases p with ⟨r, c⟩
      have hred : solveStatsF (fuel + 1) g sup nodes =
          statsLoop (solveStatsF fuel) r c (sup.headD digits) g sup.tail nodes := by
        simp [solveStatsF, hfe]
      rw [hred]
      exact statsLoop_nodes_mono (fun g' s' n' => ih g' s' n') _ _ _ _

theorem statsLoop_ok_nodes {f : Grid → List (List Int) → Nat → StatsRes} {r c : Nat}
    (hm : ∀ g' s' n', n' ≤ (f g' s' n').nodes) :
    ∀ (ds : List Int) (g : Grid) (sup : List (List Int)) (nodes : Nat),
      (statsLoop f r c ds g sup nodes).ok = true →
      nodes + 1 ≤ (statsLoop f r c ds g sup nodes).nodes := by
  intro ds
  induction ds with
  | nil =>
    intro g sup nodes hok
    simp [statsLoop] at hok
  | cons d ds ih =>
    intro g sup nodes
    simp only [statsLoop]
    split
    · by_cases hok2 : (f (setCell g r c d) sup (nodes + 1)).ok = true
      · rw [if_pos hok2]
        intro _
        have := hm (setCell g r c d) sup (nodes + 1)
        omega
      · rw [if_neg hok2]
        intro hok
        have h1 := hm (setCell g r c d) sup (nodes + 1)
        have h2 := ih _ _ _ hok
        omega
    · intro hok
      exact ih g sup nodes hok

theorem solveStatsF_ok_nodes {fuel : Nat} {g : Grid} {sup : List (List Int)} {nodes : Nat}
    {r c : Nat} (hfe : find_empty g = some (r, c))
    (hok : (solveStatsF fuel g sup nodes).ok = true) :
    nodes + 1 ≤ (solveStatsF fuel g sup nodes).nodes := by
  cases fuel with
  | zero => cases hok
  | succ fuel =>
    have hred : solveStatsF (fuel + 1) g sup nodes =
        statsLoop (solveStatsF fuel) r c (sup.headD digits) g sup.tail nodes := by
      simp [solveStatsF, hfe]
    rw [hred] at hok ⊢
    exact statsLoop_ok_nodes (fun g' s' n' => solveStatsF_nodes_mono fuel g' s' n') _ _ _ _ hok

theorem attemptNodes_pos (a : AttemptR)
    (hgen : ∀ l ∈ a.genSupply, l.Perm digits)
    (hcells : a.cellOrder.Perm allCells)
    (hmeas : ∀ l ∈ a.measureSupply, l.Perm digits) :
    1 ≤ attemptNodes a := by
  obtain ⟨hok0, hinv, hcomp⟩ := generate_full_grid_spec a.genSupply hgen
  cases hco : a.cellOrder with
  | nil =>
    have hlen := hcells.length_eq
    rw [hco, allCells_length] at hlen
    cases hlen
  | cons p rest =>
    rcases p with ⟨r, c⟩
    have hmem : (r, c) ∈ allCells := by
      rw [← hcells.mem_iff, hco]
      exact List.mem_cons_self _ _
    obtain ⟨hr, hc⟩ := mem_allCells.1 hmem
    have hpz : getCell (attemptPuzzle a) r c = 0 := by
      show getCell (reduceLoop (DIFFICULTY_CLUES .extreme) a.cellOrder
        (generate_full_grid a.genSupply) 0) r c = 0
      rw [hco]
      simp only [reduceLoop]
      rw [if_neg (by decide)]
      rw [if_pos (count_one_hole hinv hcomp hr hc)]
      exact reduceLoop_zero_mono rest _ 1 r c (getCell_setCell_self hinv.1 hr hc 0)
    have hsub : ClueSub (attemptPuzzle a) (generate_full_grid a.genSupply) :=
      reduceLoop_sub a.cellOrder _ 0
    have hwfp : GridWF (attemptPuzzle a) := reduceLoop_wf a.cellOrder _ 0 hinv.1
    have hsol : Solution (generate_full_grid a.genSupply) (attemptPuzzle a) :=
      ⟨hinv.1, hcomp, Cells19_of_complete hcomp hinv.2.1, hinv.2.2, Extends_of_ClueSub hsub⟩
    have hfep := find_empty_isSome hr hc hpz
    cases hq : find_empty (attemptPuzzle a) with
    | none =>
      rw [hq] at hfep
      cases hfep
    | some q =>
      rcases q with ⟨x, y⟩
      have hok : (solveStatsF 82 (attemptPuzzle a) a.measureSupply 0).ok = true :=
        solveStatsF_complete 82 _ _ 0 (generate_full_grid a.genSupply) hwfp hsol
          (lt_of_le_of_lt (numEmpty_le _) (by omega)) hmeas
      exact solveStatsF_ok_nodes hq hok

theorem extremeLoop_error {min_nodes : Nat} {rand : Nat → AttemptR} :
    ∀ (k i : Nat), (∀ j, i ≤ j → j < i + k → attemptNodes (rand j) < min_nodes) →
      extremeLoop min_nodes rand k i = .error "Failed to generate extreme puzzle" := by
  intro k
  induction k with
  | zero => intro i _; rfl
  | succ k ih =>
    intro i h
    simp only [extremeLoop]
    rw [if_neg (by have := h i (le_refl i) (by omega); omega)]
    exact ih (i + 1) (fun j h1 h2 => h j (by omega) (by omega))

theorem extremeLoop_ok {min_nodes : Nat} {rand : Nat → AttemptR} :
    ∀ (k i : Nat), (∃ j, i ≤ j ∧ j < i + k ∧ min_nodes ≤ attemptNodes (rand j)) →
      ∃ j, i ≤ j ∧ j < i + k ∧ min_nodes ≤ attemptNodes (rand j) ∧
        extremeLoop min_nodes rand k i = .ok (attemptPuzzle (rand j)) := by
  intro k
  induction k with
  | zero =>
    rintro i ⟨j, h1, h2, _⟩
    omega
  | succ k ih =>
    intro i hex
    simp only [extremeLoop]
    by_cases hi : min_nodes ≤ attemptNodes (rand i)
    · rw [if_pos hi]
      exact ⟨i, le_refl i, by omega, hi, rfl⟩
    · rw [if_neg hi]
      obtain ⟨j, h1, h2, h3⟩ := hex
      have hji : j ≠ i := fun he => hi (he ▸ h3)
      obtain ⟨j', hj1, hj2, hj3, hj4⟩ := ih (i + 1) ⟨j, by omega, by omega, h3⟩
      exact ⟨j', by omega, by omega, hj3, hj4⟩

/-- C5: if some attempt within the bound measures at least `min_nodes` nodes,
`generate_extreme_puzzle` returns the puzzle of such an attempt (so the
returned puzzle's measured node count meets the threshold); with a threshold
of 1 it succeeds on the very first attempt; and when no attempt within the
bound meets the threshold it raises the exhaustion error instead of silently
returning a weaker puzzle. -/
theorem generate_extreme_puzzle_spec (min_nodes max_attempts : Nat) (rand : Nat → AttemptR)
    (hrand : ∀ i, (∀ l ∈ (rand i).genSupply, l.Perm digits) ∧
      (rand i).cellOrder.Perm allCells ∧ (∀ l ∈ (rand i).measureSupply, l.Perm digits)) :
    ((∃ j, j < max_attempts ∧ min_nodes ≤ attemptNodes (rand j)) →
      ∃ j, j < max_attempts ∧ min_nodes ≤ attemptNodes (rand j) ∧
        generate_extreme_puzzle min_nodes max_attempts rand = .ok (attemptPuzzle (rand j))) ∧
    (min_nodes = 1 → 1 ≤ max_attempts →
      generate_extreme_puzzle min_nodes max_attempts rand = .ok (attemptPuzzle (rand 0)) ∧
      1 ≤ attemptNodes (rand 0)) ∧
    ((∀ j, j < max_attempts → attemptNodes (rand j) < min_nodes) →
      generate_extreme_puzzle min_nodes max_attempts rand =
        .error "Failed to generate extreme puzzle") := by
  refine ⟨?_, ?_, ?_⟩
  · rintro ⟨j, hj, hn⟩
    obtain ⟨j', h1, h2, h3, h4⟩ := extremeLoop_ok max_attempts 0 ⟨j, by omega, by omega, hn⟩
    exact ⟨j', by omega, h3, h4⟩
  · rintro rfl hm
    have hpos : 1 ≤ attemptNodes (rand 0) :=
      attemptNodes_pos (rand 0) (hrand 0).1 (hrand 0).2.1 (hrand 0).2.2
    cases max_attempts with
    | zero => omega
    | succ m =>
      refine ⟨?_, hpos⟩
      show extremeLoop 1 rand (m + 1) 0 = _
      simp only [extremeLoop]
      rw [if_pos hpos]
  · intro h
    exact extremeLoop_error max_attempts 0 (fun j h1 h2 => h j (by omega))

theorem generate_extreme_puzzle_spec_witness :
    ∃ j, j < 1 ∧ 0 ≤ attemptNodes (constAttempt j) ∧
      generate_extreme_puzzle 0 1 constAttempt = .ok (attemptPuzzle (constAttempt j)) :=
  (generate_extreme_puzzle_spec 0 1 constAttempt
    (fun _ => ⟨fun l hl => absurd hl (List.not_mem_nil l), List.Perm.refl _,
      fun l hl => absurd hl (List.not_mem_nil l)⟩)).1 ⟨0, by omega, Nat.zero_le _⟩

/-!  Correctness of `validate_grid` (C4).  -/

theorem is_valid_group_iff (l : List Int) : is_valid_group l = true ↔ ¬ GroupHasDup l := by
  unfold is_valid_group GroupHasDup
  simp only [beq_iff_eq]
  have h1 : (l.filter (fun v => v != 0)).dedup.length = (l.filter (fun v => v != 0)).length ↔
      (l.filter (fun v => v != 0)).Nodup := by
    constructor
    · intro h
      have := (List.dedup_sublist (l.filter (fun v => v != 0))).eq_of_length h
      rw [← this]
      exact List.nodup_dedup _
    · intro h
      rw [List.dedup_eq_self.2 h]
  rw [h1, List.nodup_iff_count_le_one]
  constructor
  · rintro h ⟨a, ha, hcount⟩
    have := h a
    rw [List.count_filter (by simpa using ha)] at this
    omega
  · intro h a
    rcases eq_or_ne a 0 with rfl | ha
    · have : (0 : Int) ∉ l.filter (fun v => v != 0) := by
        intro hm
        simpa using (List.mem_filter.1 hm).2
      rw [List.count_eq_zero.2 this]
      omega
    · rw [List.count_filter (by simpa using ha)]
      by_contra hc
      exact h ⟨a, ha, by omega⟩

theorem checkRange_none_iff (g : Grid) :
    ∀ cells : List (Nat × Nat), (checkRange g cells = none ↔
      ∀ p ∈ cells, 0 ≤ getCell g p.1 p.2 ∧ getCell g p.1 p.2 ≤ 9) := by
  intro cells
  induction cells with
  | nil => simp [checkRange]
  | cons p rest ih =>
    rcases p with ⟨r, c⟩
    simp only [checkRange]
    split
    · rename_i hin
      rw [ih]
      constructor
      · intro h q hq
        rcases List.mem_cons.1 hq with rfl | hq
        · exact hin
        · exact h q hq
      · intro h q hq
        exact h q (List.mem_cons_of_mem _ hq)
    · rename_i hout
      constructor
      · intro h; cases h
      · intro h
        exact absurd (h (r, c) (List.mem_cons_self _ _)) hout

theorem checkRange_cases (g : Grid) :
    ∀ cells : List (Nat × Nat), checkRange g cells = none ∨
      ∃ r c, (r, c) ∈ cells ∧ ¬(0 ≤ getCell g r c ∧ getCell g r c ≤ 9) ∧
        checkRange g cells = some (.outOfRange r c (getCell g r c)) := by
  intro cells
  induction cells with
  | nil => exact Or.inl rfl
  | cons p rest ih =>
    rcases p with ⟨r, c⟩
    simp only [checkRange]
    split
    · rename_i hin
      rcases ih with h | ⟨r', c', hmem, hbad, heq⟩
      · exact Or.inl h
      · exact Or.inr ⟨r', c', List.mem_cons_of_mem _ hmem, hbad, heq⟩
    · rename_i hout
      exact Or.inr ⟨r, c, List.mem_cons_self _ _, hout, rfl⟩

theorem checkRows_none_iff (g : Grid) :
    ∀ rs : List Nat, (checkRows g rs = none ↔ ∀ r ∈ rs, is_valid_group (g.getD r []) = true) := by
  intro rs
  induction rs with
  | nil => simp [checkRows]
  | cons r rest ih =>
    simp only [checkRows]
    split
    · rename_i hok
      rw [ih]
      constructor
      · intro h q hq
        rcases List.mem_cons.1 hq with rfl | hq
        · exact hok
        · exact h q hq
      · intro h q hq
        exact h q (List.mem_cons_of_mem _ hq)
    · rename_i hbad
      constructor
      · intro h; cases h
      · intro h
        exact absurd (h r (List.mem_cons_self _ _)) hbad

theorem checkCols_none_iff (g : Grid) :
    ∀ cs : List Nat, (checkCols g cs = none ↔ ∀ c ∈ cs, is_valid_group (colList g c) = true) := by
  intro cs
  induction cs with
  | nil => simp [checkCols]
  | cons c rest ih =>
    simp only [checkCols]
    split
    · rename_i hok
      rw [ih]
      constructor
      · intro h q hq
        rcases List.mem_cons.1 hq with rfl | hq
        · exact hok
        · exact h q hq
      · intro h q hq
        exact h q (List.mem_cons_of_mem _ hq)
    · rename_i hbad
      constructor
      · intro h; cases h
      · intro h
        exact absurd (h c (List.mem_cons_self _ _)) hbad

theorem checkBoxes_none_iff (g : Grid) :
    ∀ bs : List (Nat × Nat),
      (checkBoxes g bs = none ↔ ∀ p ∈ bs, is_valid_group (boxList g p.1 p.2) = true) := by
  intro bs
  induction bs with
  | nil => simp [checkBoxes]
  | cons p rest ih =>
    rcases p with ⟨br, bc⟩
    simp only [checkBoxes]
    split
    · rename_i hok
      rw [ih]
      constructor
      · intro h q hq
        rcases List.mem_cons.1 hq with rfl | hq
        · exact hok
        · exact h q hq
      · intro h q hq
        exact h q (List.mem_cons_of_mem _ hq)
    · rename_i hbad
      constructor
      · intro h; cases h
      · intro h
        exact absurd (h (br, bc) (List.mem_cons_self _ _)) hbad

theorem groupHasDup_of_invalid {l : List Int} (h : is_valid_group l = false) :
    GroupHasDup l := by
  by_contra hd
  have := (is_valid_group_iff l).2 hd
  rw [h] at this
  cases this

theorem checkRows_cases (g : Grid) :
    ∀ rs : List Nat, checkRows g rs = none ∨
      ∃ r ∈ rs, is_valid_group (g.getD r []) = false ∧ checkRows g rs = some (.dupRow r) := by
  intro rs
  induction rs with
  | nil => exact Or.inl rfl
  | cons r rest ih =>
    simp only [checkRows]
    split
    · rcases ih with h | ⟨r', hmem, hbad, heq⟩
      · exact Or.inl h
      · exact Or.inr ⟨r', List.mem_cons_of_mem _ hmem, hbad, heq⟩
    · rename_i hbad
      exact Or.inr ⟨r, List.mem_cons_self _ _, Bool.not_eq_true _ ▸ hbad, rfl⟩

theorem checkCols_cases (g : Grid) :
    ∀ cs : List Nat, checkCols g cs = none ∨
      ∃ c ∈ cs, is_valid_group (colList g c) = false ∧ checkCols g cs = some (.dupCol c) := by
  intro cs
  induction cs with
  | nil => exact Or.inl rfl
  | cons c rest ih =>
    simp only [checkCols]
    split
    · rcases ih with h | ⟨c', hmem, hbad, heq⟩
      · exact Or.inl h
      · exact Or.inr ⟨c', List.mem_cons_of_mem _ hmem, hbad, heq⟩
    · rename_i hbad
      exact Or.inr ⟨c, List.mem_cons_self _ _, Bool.not_eq_true _ ▸ hbad, rfl⟩

theorem checkBoxes_cases (g : Grid) :
    ∀ bs : List (Nat × Nat), checkBoxes g bs = none ∨
      ∃ p ∈ bs, is_valid_group (boxList g p.1 p.2) = false ∧
        checkBoxes g bs = some (.dupBox p.1 p.2) := by
  intro bs
  induction bs with
  | nil => exact Or.inl rfl
  | cons p rest ih =>
    rcases p with ⟨br, bc⟩
    simp only [checkBoxes]
    split
    · rcases ih with h | ⟨p', hmem, hbad, heq⟩
      · exact Or.inl h
      · exact Or.inr ⟨p', List.mem_cons_of_mem _ hmem, hbad, heq⟩
    · rename_i hbad
      exact Or.inr ⟨(br, bc), List.mem_cons_self _ _, Bool.not_eq_true _ ▸ hbad, rfl⟩

/-- C4: `validate_grid` raises no error exactly when every cell lies in [0,9]
and no row, column or 3x3 box holds the same non-zero digit twice; when some
cell is out of range, the error raised is an out-of-range error naming a cell
and its value (range errors are reported before duplicate errors); and when
all cells are in range but some group holds a duplicate, the error raised is
a duplicate error of the matching kind, naming a row, column or box that
indeed contains two equal non-zero digits. -/
theorem validate_grid_correct (g : Grid) (hwf : GridWF g) :
    (validate_grid g = none ↔
      ((∀ r < 9, ∀ c < 9, 0 ≤ getCell g r c ∧ getCell g r c ≤ 9) ∧
       (∀ r < 9, ¬ GroupHasDup (g.getD r [])) ∧
       (∀ c < 9, ¬ GroupHasDup (colList g c)) ∧
       (∀ p ∈ boxOrigins, ¬ GroupHasDup (boxList g p.1 p.2)))) ∧
    ((∃ r < 9, ∃ c < 9, ¬(0 ≤ getCell g r c ∧ getCell g r c ≤ 9)) →
      ∃ r c, ¬(0 ≤ getCell g r c ∧ getCell g r c ≤ 9) ∧
        validate_grid g = some (.outOfRange r c (getCell g r c))) ∧
    ((∀ r < 9, ∀ c < 9, 0 ≤ getCell g r c ∧ getCell g r c ≤ 9) →
      ((∃ r < 9, GroupHasDup (g.getD r [])) ∨ (∃ c < 9, GroupHasDup (colList g c)) ∨
       (∃ p ∈ boxOrigins, GroupHasDup (boxList g p.1 p.2))) →
      ∃ e, validate_grid g = some e ∧
        ((∃ r < 9, e = ValErr.dupRow r ∧ GroupHasDup (g.getD r [])) ∨
         (∃ c < 9, e = ValErr.dupCol c ∧ GroupHasDup (colList g c)) ∨
         (∃ p ∈ boxOrigins, e = ValErr.dupBox p.1 p.2 ∧ GroupHasDup (boxList g p.1 p.2)))) := by
  refine ⟨?_, ?_, ?_⟩
  · unfold validate_grid
    constructor
    · intro h
      have hrange : checkRange g allCells = none := by
        cases hx : checkRange g allCells with
        | none => rfl
        | some e => rw [hx] at h; cases h
      rw [hrange] at h
      have hrows : checkRows g (List.range 9) = none := by
        cases hx : checkRows g (List.range 9) with
        | none => rfl
        | some e => rw [hx] at h; cases h
      rw [hrows] at h
      have hcols : checkCols g (List.range 9) = none := by
        cases hx : checkCols g (List.range 9) with
        | none => rfl
        | some e => rw [hx] at h; cases h
      rw [hcols] at h
      refine ⟨?_, ?_, ?_, ?_⟩
      · intro r hr c hc
        exact (checkRange_none_iff g allCells).1 hrange (r, c) (mem_allCells.2 ⟨hr, hc⟩)
      · intro r hr
        rw [← is_valid_group_iff]
        exact (checkRows_none_iff g _).1 hrows r (List.mem_range.2 hr)
      · intro c hc
        rw [← is_valid_group_iff]
        exact (checkCols_none_iff g _).1 hcols c (List.mem_range.2 hc)
      · intro p hp
        rw [← is_valid_group_iff]
        exact (checkBoxes_none_iff g _).1 h p hp
    · rintro ⟨hrange, hrows, hcols, hboxes⟩
      have h1 : checkRange g allCells = none := by
        rw [checkRange_none_iff]
        intro p hp
        rcases p with ⟨r, c⟩
        have := mem_allCells.1 hp
        exact hrange r this.1 c this.2
      have h2 : checkRows g (List.range 9) = none := by
        rw [checkRows_none_iff]
        intro r hr
        rw [is_valid_group_iff]
        exact hrows r (List.mem_range.1 hr)
      have h3 : checkCols g (List.range 9) = none := by
        rw [checkCols_none_iff]
        intro c hc
        rw [is_valid_group_iff]
        exact hcols c (List.mem_range.1 hc)
      have h4 : checkBoxes g boxOrigins = none := by
        rw [checkBoxes_none_iff]
        intro p hp
        rw [is_valid_group_iff]
        exact hboxes p hp
      rw [h1, h2, h3, h4]
  · rintro ⟨r, hr, c, hc, hbad⟩
    rcases checkRange_cases g allCells with h | ⟨r', c', _, hbad', heq⟩
    · exact absurd ((checkRange_none_iff g allCells).1 h (r, c) (mem_allCells.2 ⟨hr, hc⟩)) hbad
    · refine ⟨r', c', hbad', ?_⟩
      unfold validate_grid
      rw [heq]
  · intro hrange hdup
    have h1 : checkRange g allCells = none := by
      rw [checkRange_none_iff]
      intro p hp
      rcases p with ⟨r, c⟩
      have := mem_allCells.1 hp
      exact hrange r this.1 c this.2
    rcases checkRows_cases g (List.range 9) with hrows | ⟨r, hrmem, hrbad, hreq⟩
    · rcases checkCols_cases g (List.range 9) with hcols | ⟨c, hcmem, hcbad, hceq⟩
      · rcases checkBoxes_cases g boxOrigins with hboxes | ⟨p, hpmem, hpbad, hpeq⟩
        · exfalso
          rcases hdup with ⟨r, hr, hd⟩ | ⟨c, hc, hd⟩ | ⟨p, hp, hd⟩
          · exact ((is_valid_group_iff _).1
              ((checkRows_none_iff g _).1 hrows r (List.mem_range.2 hr))) hd
          · exact ((is_valid_group_iff _).1
              ((checkCols_none_iff g _).1 hcols c (List.mem_range.2 hc))) hd
          · exact ((is_valid_group_iff _).1
              ((checkBoxes_none_iff g _).1 hboxes p hp)) hd
        · have hv : validate_grid g = some (.dupBox p.1 p.2) := by
            unfold validate_grid
            rw [h1, hrows, hcols, hpeq]
          exact ⟨_, hv, Or.inr (Or.inr ⟨p, hpmem, rfl, groupHasDup_of_invalid hpbad⟩)⟩
      · have hv : validate_grid g = some (.dupCol c) := by
          unfold validate_grid
          rw [h1, hrows, hceq]
        exact ⟨_, hv, Or.inr (Or.inl ⟨c, List.mem_range.1 hcmem, rfl,
          groupHasDup_of_invalid hcbad⟩)⟩
    · have hv : validate_grid g = some (.dupRow r) := by
        unfold validate_grid
        rw [h1, hreq]
      exact ⟨_, hv, Or.inl ⟨r, List.mem_range.1 hrmem, rfl, groupHasDup_of_invalid hrbad⟩⟩

theorem validate_grid_correct_witness :
    validate_grid base9 = none ↔
      ((∀ r < 9, ∀ c < 9, 0 ≤ getCell base9 r c ∧ getCell base9 r c ≤ 9) ∧
       (∀ r < 9, ¬ GroupHasDup (base9.getD r [])) ∧
       (∀ c < 9, ¬ GroupHasDup (colList base9 c)) ∧
       (∀ p ∈ boxOrigins, ¬ GroupHasDup (boxList base9 p.1 p.2))) :=
  (validate_grid_correct base9 (by decide)).1

/-- C9: every invocation of the backtracking search terminates on every
well-formed 9x9 grid: a grid has at most 81 empty cells, each recursive call
fills one more empty cell or exhausts its digit choices, and once the fuel
(recursion-depth allowance) exceeds the number of empty cells the result of
each of the three searches no longer depends on it. -/
theorem searches_terminate (g : Grid) (limit : Nat) (sup : List (List Int)) (fuel : Nat)
    (hwf : GridWF g) (hfuel : numEmpty g < fuel) :
    numEmpty g ≤ 81 ∧
    countSolsF fuel g limit = count_solutions g limit ∧
    solveF fuel g 0 = solve_sudoku g ∧
    solveStatsF fuel g sup 0 = solve_sudoku_with_stats g sup := by
  have h82 : numEmpty g < 82 := lt_of_le_of_lt (numEmpty_le g) (by omega)
  exact ⟨numEmpty_le g,
    countSolsF_stable fuel 82 g hwf hfuel h82,
    solveF_stable fuel 82 g hwf hfuel h82 0,
    solveStatsF_stable fuel 82 g hwf hfuel h82 sup 0⟩

theorem searches_terminate_witness :
    numEmpty base9 ≤ 81 ∧
    countSolsF 1 base9 2 = count_solutions base9 2 ∧
    solveF 1 base9 0 = solve_sudoku base9 ∧
    solveStatsF 1 base9 [] 0 = solve_sudoku_with_stats base9 [] :=
  searches_terminate base9 2 [] 1 (by decide) (by decide)

/-- C6 counterexample: the hardness measurement (`solve_sudoku_with_stats`)
counts 3 nodes on this puzzle under ascending candidate draws but 2 nodes
when the first draw is 2,1,3,...,9 — both draws are permutations of the
digits, so the measured node count is not independent of the randomness
source. -/
theorem measured_nodes_depend_on_randomness :
    (solve_sudoku_with_stats orderSensitiveGrid []).nodes = 3 ∧
    (solve_sudoku_with_stats orderSensitiveGrid [[2, 1, 3, 4, 5, 6, 7, 8, 9]]).nodes = 2 := by
  constructor <;> decide

/-- C6 (amended): the extreme tier measures hardness with
`solve_sudoku_with_stats`, the first-solution search that draws a fresh
random permutation of the digits at every call (randomized, not ascending,
candidate order); consequently the measured node count depends on the drawn
orders: two measurement runs of the same fixed puzzle can count different
numbers of nodes. -/
theorem measurement_is_randomized :
    ∃ (g : Grid) (s₁ s₂ : List (List Int)),
      (∀ l ∈ s₁, l.Perm digits) ∧ (∀ l ∈ s₂, l.Perm digits) ∧
      (solve_sudoku_with_stats g s₁).ok = true ∧ (solve_sudoku_with_stats g s₂).ok = true ∧
      (solve_sudoku_with_stats g s₁).nodes ≠ (solve_sudoku_with_stats g s₂).nodes := by
  refine ⟨orderSensitiveGrid, [], [[2, 1, 3, 4, 5, 6, 7, 8, 9]], ?_, ?_, ?_, ?_, ?_⟩
  · intro l hl; cases hl
  · intro l hl
    rcases List.mem_cons.1 hl with rfl | hl
    · decide
    · cases hl
  · decide
  · decide
  · decide

/-- C10: the counting search hands the grid back exactly as it received it,
on every path (including the early cap return), because every tentative
placement is reset to 0 before any return; callers need no defensive copy. -/
theorem count_solutions_restores_grid (g : Grid) (limit : Nat) :
    (count_solutions g limit).2 = g :=
  countSolsF_snd 82 g limit

/-- C3: when `solve_sudoku` exhausts all possibilities and reports failure the
grid is exactly the input grid (every engine-made placement undone); when it
reports success the grid is a completion of the input (complete, all clues of
the input kept). -/
theorem solve_sudoku_failure_reverts (g : Grid) :
    ((solve_sudoku g).ok = false → (solve_sudoku g).grid = g) ∧
    ((solve_sudoku g).ok = true →
      Complete (solve_sudoku g).grid ∧ Extends g (solve_sudoku g).grid) := by
  refine ⟨(solveF_spec 82 g 0).1, fun h => ?_⟩
  obtain ⟨hc, he⟩ := (solveF_spec 82 g 0).2 h
  exact ⟨find_empty_none_iff.1 hc, he⟩

theorem solve_sudoku_failure_reverts_witness :
    (solve_sudoku unsolvableGrid).ok = false ∧
    (solve_sudoku unsolvableGrid).grid = unsolvableGrid :=
  ⟨by decide, (solve_sudoku_failure_reverts unsolvableGrid).1 (by decide)⟩

end Sudoku
